import Mathlib

/-!
Verification of the `edit-mind` video-analysis engine (src/python/analyze.py and
src/python/plugins/activity.py) against its natural-language specification.

The Python code is shallowly embedded: machine floats that are exactly
representable are modelled as rationals, Python dicts as association lists,
raised exceptions as `Except`/`Option` values, and the mutable per-run plugin
statistics as an explicit state record threaded through the scheduler.
-/

namespace EditMind

/-- Python `int()` applied to a rational: truncation toward zero
(`int(7.5) = 7`, `int(-7.5) = -7`). -/
def pyTrunc (q : ℚ) : ℤ := if 0 ≤ q then ⌊q⌋ else -⌊-q⌋

/-- Python `round()` on a rational: round half to even (banker's rounding),
the semantics of CPython `round` on floats whose value is exactly `q`. -/
def pyRound (q : ℚ) : ℤ :=
  if q - ⌊q⌋ < 1/2 then ⌊q⌋
  else if 1/2 < q - ⌊q⌋ then ⌊q⌋ + 1
  else if ⌊q⌋ % 2 = 0 then ⌊q⌋ else ⌊q⌋ + 1

theorem pyTrunc_nonneg (q : ℚ) (h : 0 ≤ q) : pyTrunc q = ⌊q⌋ := by
  simp [pyTrunc, h]

theorem pyRound_bounds (q : ℚ) : ⌊q⌋ ≤ pyRound q ∧ pyRound q ≤ ⌊q⌋ + 1 := by
  unfold pyRound
  split_ifs <;> omega

/-- `pyRound` is monotone. -/
theorem pyRound_mono {q r : ℚ} (h : q ≤ r) : pyRound q ≤ pyRound r := by
  have hf : ⌊q⌋ ≤ ⌊r⌋ := Int.floor_le_floor h
  rcases eq_or_lt_of_le hf with heq | hlt
  · have hfr : q - (⌊q⌋ : ℚ) ≤ r - (⌊q⌋ : ℚ) := by linarith
    unfold pyRound
    rw [← heq]
    split_ifs <;> first | omega | linarith
  · have h2 := (pyRound_bounds q).2
    have h3 := (pyRound_bounds r).1
    omega

/-- A detected object, the elements of a frame's `objects` annotation
(`label` and `confidence` as produced by the object-detection plugin). -/
structure DetObj where
  label : String
  confidence : ℚ
deriving Repr, DecidableEq

/-- Values stored in a frame-analysis dictionary. -/
inductive Val where
  | int (n : ℤ)
  | rat (q : ℚ)
  | str (s : String)
  | objs (l : List DetObj)
deriving Repr, DecidableEq

/-- A Python dict, modelled as an association list in which a later entry for a
key shadows an earlier one (so `dict.update` is list append). -/
abbrev Dict := List (String × Val)

/-- Dictionary lookup: the last entry for a key wins. -/
def dget : Dict → String → Option Val
  | [], _ => none
  | (k, v) :: d, key =>
    match dget d key with
    | some w => some w
    | none => if key = k then some v else none

/-- Python `d.update(u)`: entries of `u` shadow those of `d`. -/
def dupdate (d u : Dict) : Dict := d ++ u

theorem dget_cons (k' : String) (v : Val) (d : Dict) (k : String) :
    dget ((k', v) :: d) k =
      match dget d k with
      | some w => some w
      | none => if k = k' then some v else none := rfl

theorem dget_append (d u : Dict) (k : String) :
    dget (d ++ u) k = (dget u k <|> dget d k) := by
  induction d with
  | nil => cases h : dget u k <;> simp [dget, h]
  | cons a d ih =>
    obtain ⟨k', v⟩ := a
    have hstep : ((k', v) :: d) ++ u = (k', v) :: (d ++ u) := rfl
    rw [hstep, dget_cons, ih, dget_cons]
    cases h : dget u k <;> cases h' : dget d k <;> simp

theorem dget_dupdate (d u : Dict) (k : String) :
    dget (dupdate d u) k = (dget u k <|> dget d k) :=
  dget_append d u k

/-- Updating a dict leaves keys the update does not mention unchanged. -/
theorem dget_dupdate_of_not_mem (d u : Dict) (k : String) (h : dget u k = none) :
    dget (dupdate d u) k = dget d k := by
  rw [dget_dupdate, h]
  cases dget d k <;> simp

theorem dget_dupdate_self (d : Dict) (k : String) :
    dget (dupdate d d) k = dget d k := by
  rw [dget_dupdate]
  cases h : dget d k <;> simp [h]

/-- Assignment `m[k] = v` on a Python dict modelled as an association list with
unique keys: replace the first binding of `k`, else append. -/
def alistSet {α : Type} : List (String × α) → String → α → List (String × α)
  | [], k, v => [(k, v)]
  | (k', v') :: t, k, v =>
    if k = k' then (k, v) :: t else (k', v') :: alistSet t k v

/-- Lookup in a unique-key association list (Python `m.get(k)`): first
binding wins. -/
def alistGet {α : Type} : List (String × α) → String → Option α
  | [], _ => none
  | (k', v) :: t, k => if k = k' then some v else alistGet t k

theorem alistGet_alistSet {α : Type} (l : List (String × α)) (k k' : String) (v : α) :
    alistGet (alistSet l k v) k' = if k' = k then some v else alistGet l k' := by
  induction l with
  | nil =>
    by_cases h : k' = k <;> simp [alistSet, alistGet, h]
  | cons a t ih =>
    obtain ⟨ka, va⟩ := a
    by_cases h1 : k = ka
    · subst h1
      by_cases h2 : k' = k <;> simp [alistSet, alistGet, h2]
    · by_cases h2 : k' = ka
      · subst h2
        have h3 : ¬ k' = k := fun hc => h1 hc.symm
        simp [alistSet, alistGet, h1, h3]
      · by_cases h3 : k' = k
        · subst h3
          simp [alistSet, alistGet, h1, h2, ih]
        · simp [alistSet, alistGet, h1, h2, h3, ih]

/-! ## Frame extraction (FrameProcessor.extract_frames_streaming_generator) -/

/-- Analysis configuration: the fields of `AnalysisConfig` read by the
modelled code paths, with the source's defaults. -/
structure AnalysisConfig where
  sample_interval_seconds : ℚ := 5/2
  frame_buffer_limit : ℕ := 8
  plugin_timeout_seconds : ℕ := 60
  plugin_skip_interval : Option (List (String × ℕ)) :=
    some [("DominantColorPlugin", 2), ("TextDetectionPlugin", 3), ("EmotionDetectionPlugin", 2)]
deriving Repr

/-- The video file as seen through cv2: whether the path exists, whether
`VideoCapture` opens it, and the reported fps and native frame count. -/
structure Video where
  path : String
  fileExists : Bool
  opens : Bool
  fps : ℚ
  totalFrames : ℤ
deriving Repr

/-- The per-sample dict yielded by the generator.  The pixel buffer is an
opaque tag (`none` models the `frame` key having been popped). -/
structure FrameData where
  frame : Option ℕ
  timestamp_ms : ℤ
  end_timestamp_ms : ℤ
  frame_idx : ℕ
  scale_factor : ℚ
deriving Repr, DecidableEq

/-- `sample_interval = max(1, int(fps * self.config.sample_interval_seconds))`
in the generator. -/
def sampleStride (fps interval : ℚ) : ℕ :=
  max 1 (pyTrunc (fps * interval)).toNat

/-- The loop `for frame_idx in range(0, total, step)`.  At its call site
`step ≥ 1` holds (the stride is guarded by `max(1, ...)`); the internal
`max 1 step` only affects the out-of-contract case `step = 0`, where Python
`range` would raise. -/
def rangeStep (total step : ℕ) (pos : ℕ) : List ℕ :=
  if pos < total then pos :: rangeStep total step (pos + max 1 step) else []
termination_by total - pos
decreasing_by
  have h1 : 1 ≤ max 1 step := le_max_left _ _
  omega

theorem rangeStep_nil {total step pos : ℕ} (h : ¬ pos < total) :
    rangeStep total step pos = [] := by
  rw [rangeStep, if_neg h]

theorem rangeStep_cons {total step pos : ℕ} (h : pos < total) :
    rangeStep total step pos = pos :: rangeStep total step (pos + max 1 step) := by
  rw [rangeStep]; rw [if_pos h]

theorem rangeStep_eq_nil_iff {total step pos : ℕ} :
    rangeStep total step pos = [] ↔ ¬ pos < total := by
  constructor
  · intro h hc
    rw [rangeStep_cons hc] at h
    exact List.cons_ne_nil _ _ h
  · exact rangeStep_nil

theorem rangeStep_mem {total step : ℕ} :
    ∀ {pos x : ℕ}, x ∈ rangeStep total step pos → pos ≤ x ∧ x < total := by
  have main : ∀ n pos x, total - pos ≤ n → x ∈ rangeStep total step pos →
      pos ≤ x ∧ x < total := by
    intro n
    induction n with
    | zero =>
      intro pos x hn hm
      rw [rangeStep_nil (by omega)] at hm
      simp at hm
    | succ n ih =>
      intro pos x hn hm
      by_cases hp : pos < total
      · rw [rangeStep_cons hp] at hm
        rcases List.mem_cons.mp hm with h | h
        · omega
        · have h1 : 1 ≤ max 1 step := le_max_left _ _
          have := ih (pos + max 1 step) x (by omega) h
          omega
      · rw [rangeStep_nil hp] at hm
        simp at hm
  intro pos x
  exact main (total - pos) pos x le_rfl

theorem rangeStep_get {total step : ℕ} :
    ∀ {pos : ℕ} (i : ℕ) (h : i < (rangeStep total step pos).length),
      (rangeStep total step pos).get ⟨i, h⟩ = pos + i * max 1 step := by
  have main : ∀ n pos (i : ℕ) (h : i < (rangeStep total step pos).length),
      total - pos ≤ n → (rangeStep total step pos).get ⟨i, h⟩ = pos + i * max 1 step := by
    intro n
    induction n with
    | zero =>
      intro pos i h hn
      rw [rangeStep_nil (by omega)] at h
      simp at h
    | succ n ih =>
      intro pos i h hn
      by_cases hp : pos < total
      · have hc := @rangeStep_cons total step pos hp
        match i with
        | 0 => simp [hc]
        | i + 1 =>
          have h1 : 1 ≤ max 1 step := le_max_left _ _
          have hlen : i < (rangeStep total step (pos + max 1 step)).length := by
            have h' := h
            rw [hc] at h'
            simpa using h'
          have ihh := ih (pos + max 1 step) i hlen (by omega)
          have hstep : (rangeStep total step pos).get ⟨i + 1, h⟩ =
              (rangeStep total step (pos + max 1 step)).get ⟨i, hlen⟩ := by
            simp [hc]
          rw [hstep, ihh]
          ring
      · rw [rangeStep_nil hp] at h
        simp at h
  intro pos i h
  exact main (total - pos) pos i h le_rfl

theorem rangeStep_chain {total step : ℕ} :
    ∀ {pos : ℕ}, List.Chain' (fun a b => b = a + max 1 step) (rangeStep total step pos) := by
  have main : ∀ n pos, total - pos ≤ n →
      List.Chain' (fun a b => b = a + max 1 step) (rangeStep total step pos) := by
    intro n
    induction n with
    | zero =>
      intro pos hn
      rw [rangeStep_nil (by omega)]
      exact List.chain'_nil
    | succ n ih =>
      intro pos hn
      by_cases hp : pos < total
      · rw [rangeStep_cons hp]
        have h1 : 1 ≤ max 1 step := le_max_left _ _
        refine List.chain'_cons'.mpr ⟨?_, ih (pos + max 1 step) (by omega)⟩
        intro y hy
        by_cases hq : pos + max 1 step < total
        · rw [rangeStep_cons hq] at hy
          simp at hy
          omega
        · rw [rangeStep_nil hq] at hy
          simp at hy
      · rw [rangeStep_nil hp]
        exact List.chain'_nil
  intro pos
  exact main (total - pos) pos le_rfl

/-- The last sampled position: within the stream, but within one stride of
its end. -/
theorem rangeStep_getLast {total step pos : ℕ} (h : pos < total)
    (hne : rangeStep total step pos ≠ []) :
    total ≤ (rangeStep total step pos).getLast hne + max 1 step ∧
      (rangeStep total step pos).getLast hne < total := by
  have main : ∀ n pos (hne : rangeStep total step pos ≠ []), total - pos ≤ n →
      total ≤ (rangeStep total step pos).getLast hne + max 1 step ∧
        (rangeStep total step pos).getLast hne < total := by
    intro n
    induction n with
    | zero =>
      intro pos hne hn
      exact absurd (rangeStep_nil (by omega)) hne
    | succ n ih =>
      intro pos hne hn
      have hp : pos < total := by
        by_contra hc
        exact hne (rangeStep_nil hc)
      have h1 : 1 ≤ max 1 step := le_max_left _ _
      have hc := @rangeStep_cons total step pos hp
      by_cases hq : pos + max 1 step < total
      · have hne' : rangeStep total step (pos + max 1 step) ≠ [] := by
          rw [rangeStep_cons hq]
          exact List.cons_ne_nil _ _
        have hlast : (rangeStep total step pos).getLast hne =
            (rangeStep total step (pos + max 1 step)).getLast hne' := by
          rw [List.getLast_congr _ _ hc]
          exact List.getLast_cons hne'
        rw [hlast]
        exact ih (pos + max 1 step) hne' (by omega)
      · have hemp : rangeStep total step (pos + max 1 step) = [] := rangeStep_nil hq
        have hsing : rangeStep total step pos = [pos] := by rw [hc, hemp]
        have hne2 : ([pos] : List ℕ) ≠ [] := by simp
        rw [List.getLast_congr hne hne2 hsing]
        simp
        omega
  exact main (total - pos) pos hne le_rfl

/-- Closed form for the number of samples: `⌈(total - pos) / step⌉`. -/
theorem rangeStep_length {total step : ℕ} :
    ∀ {pos : ℕ}, (rangeStep total step pos).length =
      (total - pos + max 1 step - 1) / max 1 step := by
  have main : ∀ n pos, total - pos ≤ n →
      (rangeStep total step pos).length = (total - pos + max 1 step - 1) / max 1 step := by
    intro n
    induction n with
    | zero =>
      intro pos hn
      have h1 : 1 ≤ max 1 step := le_max_left _ _
      have h2 : total - pos = 0 := by omega
      rw [rangeStep_nil (by omega), h2]
      simp only [List.length_nil]
      exact (Nat.div_eq_of_lt (by omega)).symm
    | succ n ih =>
      intro pos hn
      have h1 : 1 ≤ max 1 step := le_max_left _ _
      by_cases hp : pos < total
      · rw [rangeStep_cons hp]
        simp only [List.length_cons]
        rw [ih (pos + max 1 step) (by omega)]
        set m := max 1 step with hm
        by_cases hd : total - pos ≤ m
        · have e1 : total - (pos + m) = 0 := by omega
          rw [e1]
          have e2 : (0 + m - 1) / m = 0 := Nat.div_eq_of_lt (by omega)
          rw [e2]
          have e3 : total - pos + m - 1 = (total - pos - 1) + m := by omega
          rw [e3, Nat.add_div_right _ (by omega)]
          have e4 : (total - pos - 1) / m = 0 := Nat.div_eq_of_lt (by omega)
          omega
        · have e1 : total - (pos + m) + m - 1 = (total - pos - 1) := by omega
          have e2 : total - pos + m - 1 = (total - pos - 1) + m := by omega
          rw [e1, e2, Nat.add_div_right _ (by omega)]
      · rw [rangeStep_nil hp]
        have h2 : total - pos = 0 := by omega
        rw [h2]
        simp only [List.length_nil]
        exact (Nat.div_eq_of_lt (by omega)).symm
  intro pos
  exact main (total - pos) pos le_rfl

/-- One loop iteration of the generator: the dict yielded for native-frame
position `pos` (pixel buffer tagged by the position; preprocessing scale
factor not claim-relevant, fixed to 1). -/
def mkFrameData (fps : ℚ) (total stride pos : ℕ) : FrameData :=
  { frame := some pos
    timestamp_ms := pyRound ((pos : ℚ) / fps * 1000)
    end_timestamp_ms := pyRound (((min (pos + stride) total : ℕ) : ℚ) / fps * 1000)
    frame_idx := pos
    scale_factor := 1 }

/-- `extract_frames_streaming_generator`, with the raise paths as `Except`
errors.  Individual native-frame reads are modelled as always succeeding (a
failed mid-stream read merely ends the sequence early in the source). -/
def extractFramesStreamingGenerator (cfg : AnalysisConfig) (v : Video) :
    Except String (List FrameData × ℚ × ℤ) :=
  if v.opens = false then .error ("Cannot open video: " ++ v.path)
  else
    let fps := if v.fps ≤ 0 then 30 else v.fps
    if v.totalFrames ≤ 0 then .error "Invalid video file: cannot determine frame count"
    else
      let total := v.totalFrames.toNat
      let stride := sampleStride fps cfg.sample_interval_seconds
      .ok ((rangeStep total stride 0).map (mkFrameData fps total stride), fps, v.totalFrames)

/-! ## Plugins and scheduler (VideoAnalyzer) -/

/-- Outcome of one `plugin.analyze_frame` call as observed by the coordinator:
the returned dict, or a raised exception; in both cases with the wall-clock
duration of the call in milliseconds (chosen by the environment — the
coordinator only measures it). -/
inductive PluginOutcome where
  | ok (result : Dict) (duration_ms : ℕ)
  | exn (duration_ms : ℕ)

/-- A detected activity (plugins/activity.py dataclass `Activity`). -/
structure Activity where
  activity : String
  confidence : ℚ
  primary_objects : List String
deriving Repr, DecidableEq

/-- A loaded plugin instance: its class name, its `analyze_frame` behaviour as
a function of the pixel buffer and the accumulated frame dict, and the
optional `analyze_activities` capability (possessed only by ActivityPlugin;
`Except` models a raise inside the hook, caught by the coordinator). -/
structure PluginModel where
  name : String
  analyzeFrame : Option ℕ → Dict → PluginOutcome
  analyzeActivities : Option (List Dict → Except Unit (List Activity)) := none

/-- The VideoAnalyzer's per-run mutable statistics dictionaries. -/
structure AnalyzerState where
  plugin_frame_counters : List (String × ℕ) := []
  plugin_metrics : List (String × List ℕ) := []
  plugin_errors : List (String × ℕ) := []
  plugin_timeouts : List (String × ℕ) := []

def criticalPlugins : List String := ["ObjectDetectionPlugin", "FaceRecognitionPlugin"]

/-- `_should_run_plugin`.  The `frame_idx` argument is received and, as in the
source, unused.  (A configured skip interval of 0 would raise
`ZeroDivisionError` in Python; Lean's `c % 0 = c` differs there, so every
theorem about the modulo test assumes a positive interval.) -/
def shouldRunPlugin (cfg : AnalysisConfig) (st : AnalyzerState) (pluginName : String)
    (frameIdx : ℕ) : Bool × AnalyzerState :=
  if pluginName ∈ criticalPlugins then (true, st)
  else
    match cfg.plugin_skip_interval with
    | none => (true, st)
    | some m =>
      let skip := (alistGet m pluginName).getD 1
      let c := (alistGet st.plugin_frame_counters pluginName).getD 0 + 1
      (c % skip == 0,
        { st with plugin_frame_counters := alistSet st.plugin_frame_counters pluginName c })

/-- First-call initialisation of the per-plugin statistics dictionaries. -/
def initPluginStats (st : AnalyzerState) (name : String) : AnalyzerState :=
  if (alistGet st.plugin_metrics name).isSome then st
  else
    { st with
      plugin_metrics := alistSet st.plugin_metrics name []
      plugin_errors := alistSet st.plugin_errors name 0
      plugin_timeouts := alistSet st.plugin_timeouts name 0 }

/-- `_safe_plugin_call`: call the plugin, record the duration on success, and
on any exception return the incoming `frame_analysis` unchanged, counting the
failure in `plugin_timeouts` (sic — the source increments the timeout counter,
not `plugin_errors`).  No comparison with `plugin_timeout_seconds` happens
anywhere: the configured per-call timeout is never enforced. -/
def safePluginCall (st : AnalyzerState) (p : PluginModel) (frame : Option ℕ)
    (frame_analysis : Dict) : Dict × AnalyzerState :=
  let st1 := initPluginStats st p.name
  match p.analyzeFrame frame frame_analysis with
  | .ok result dur =>
    (result,
      { st1 with
        plugin_metrics :=
          alistSet st1.plugin_metrics p.name
            ((alistGet st1.plugin_metrics p.name).getD [] ++ [dur]) })
  | .exn _ =>
    (frame_analysis,
      { st1 with
        plugin_timeouts :=
          alistSet st1.plugin_timeouts p.name
            ((alistGet st1.plugin_timeouts p.name).getD 0 + 1) })

/-- The base per-frame record built at the top of `_process_micro_batch`. -/
def initFrameResult (b : FrameData) : Dict :=
  [("start_time_ms", .int b.timestamp_ms),
   ("end_time_ms", .int b.end_timestamp_ms),
   ("duration_ms", .int (b.end_timestamp_ms - b.timestamp_ms)),
   ("frame_idx", .int b.frame_idx)]

/-- The inner loop of `_process_micro_batch` for one plugin: walk the batch
(frames zipped with their accumulated result dicts) in order, merging a truthy
returned dict into the frame's record. -/
def pluginOverBatch (cfg : AnalysisConfig) (p : PluginModel) :
    List (FrameData × Dict) → AnalyzerState → List Dict × AnalyzerState
  | [], st => ([], st)
  | (fd, r) :: rest, st =>
    let s := shouldRunPlugin cfg st p.name fd.frame_idx
    if s.1 then
      let c := safePluginCall s.2 p fd.frame r
      let r' := if c.1.isEmpty then r else dupdate r c.1
      let t := pluginOverBatch cfg p rest c.2
      (r' :: t.1, t.2)
    else
      let t := pluginOverBatch cfg p rest s.2
      (r :: t.1, t.2)

/-- `_process_micro_batch`: plugins in registration order (outer loop), frames
in batch order (inner loop). -/
def processMicroBatch (cfg : AnalysisConfig) (plugins : List PluginModel)
    (batch : List FrameData) (st : AnalyzerState) : List Dict × AnalyzerState :=
  plugins.foldl
    (fun acc p => pluginOverBatch cfg p (batch.zip acc.1) acc.2)
    (batch.map initFrameResult, st)

/-- `_cleanup_batch_frames`: pop the pixel buffer of every frame dict. -/
def cleanupBatchFrames (batch : List FrameData) : List FrameData :=
  batch.map (fun fd => { fd with frame := none })

/-- One progress-callback invocation `(percent, elapsed, frames_done,
frames_total)`; elapsed wall-clock time is not modelled (fixed to 0). -/
structure ProgressCall where
  percent : ℚ
  elapsed : ℚ
  frames_done : ℕ
  frames_total : ℤ
deriving Repr, DecidableEq

/-- `CallbackTqdm.update(k)`: advance the bar; the callback fires only when
the bar's `total` is truthy (nonzero). -/
def pbarUpdate (total : ℤ) (n k : ℕ) (trace : List ProgressCall) :
    ℕ × List ProgressCall :=
  let n' := n + k
  if total = 0 then (n', trace)
  else (n', trace ++ [⟨min 100 ((n' : ℚ) / (total : ℚ) * 100), 0, n', total⟩])

/-- `_process_and_cleanup_batch`, its `try/except/finally` skeleton made
explicit: `body` is the outcome of the `_process_micro_batch` call (`.error`
for a raise inside the `try`).  On success the progress bar advances by the
number of produced records; on a raise the batch contributes nothing; in both
cases the `finally` block releases every pixel buffer of the batch. -/
def processAndCleanupBatchWith (body : Except String (List Dict × AnalyzerState))
    (batch : List FrameData) (st : AnalyzerState) (total : ℤ) (n : ℕ)
    (trace : List ProgressCall) :
    List Dict × List FrameData × AnalyzerState × ℕ × List ProgressCall :=
  match body with
  | .ok (res, st') =>
    let (n', trace') := pbarUpdate total n res.length trace
    (res, cleanupBatchFrames batch, st', n', trace')
  | .error _ => ([], cleanupBatchFrames batch, st, n, trace)

/-- `_process_and_cleanup_batch` as reached from the scheduler (the embedded
`_process_micro_batch` is total, so the body never raises). -/
def processAndCleanupBatch (cfg : AnalysisConfig) (plugins : List PluginModel)
    (batch : List FrameData) (st : AnalyzerState) (total : ℤ) (n : ℕ)
    (trace : List ProgressCall) :
    List Dict × List FrameData × AnalyzerState × ℕ × List ProgressCall :=
  processAndCleanupBatchWith (.ok (processMicroBatch cfg plugins batch st)) batch st total n trace

/-- Accumulator of the streaming loop: permanent result list, pending batch,
progress-bar position, analyzer state, and the progress-callback trace. -/
structure StreamAcc where
  frame_analyses : List Dict
  batch : List FrameData
  n : ℕ
  st : AnalyzerState
  trace : List ProgressCall

/-- Process one (full or final partial) batch and fold the outcome into the
loop accumulator. -/
def runBatch (cfg : AnalysisConfig) (plugins : List PluginModel) (total : ℤ)
    (acc : StreamAcc) (batch : List FrameData) : StreamAcc :=
  match processAndCleanupBatch cfg plugins batch acc.st total acc.n acc.trace with
  | (res, _cleaned, st', n', trace') =>
    { frame_analyses := acc.frame_analyses ++ res
      batch := []
      n := n'
      st := st'
      trace := trace' }

/-- The frame-consuming loop of `_analyze_streaming_optimized`: grow the
pending batch; process it whenever it reaches `frame_buffer_limit`. -/
def streamLoop (cfg : AnalysisConfig) (plugins : List PluginModel) (total : ℤ) :
    List FrameData → StreamAcc → StreamAcc
  | [], acc => acc
  | fd :: rest, acc =>
    let batch := acc.batch ++ [fd]
    if cfg.frame_buffer_limit ≤ batch.length then
      streamLoop cfg plugins total rest (runBatch cfg plugins total acc batch)
    else
      streamLoop cfg plugins total rest { acc with batch := batch }

/-- The whole frame-consuming stage of `_analyze_streaming_optimized` for a
given generated frame list: the batching loop followed by the final
partial-batch processing (`if batch: ...` after the loop). -/
def pipelineRun (cfg : AnalysisConfig) (ps : List PluginModel) (tot : ℤ)
    (fl : List FrameData) : StreamAcc :=
  let acc := streamLoop cfg ps tot fl
    { frame_analyses := [], batch := [], n := 0, st := {}, trace := [] }
  if acc.batch.isEmpty then acc else runBatch cfg ps tot acc acc.batch

/-- `_analyze_streaming_optimized`.  The pre-pass reads fps and frame count
from its own capture (`cap.get(...) or 30.0` turns a failed open — reported by
cv2 as 0.0 — into 30), computes the expected sample count from the UNGUARDED
stride (a Python `ZeroDivisionError` when `int(fps*interval) = 0`, surfaced
as its `str()`), then drains the generator in batches of
`frame_buffer_limit`, processing a final partial batch at the end. -/
def analyzeStreamingOptimized (cfg : AnalysisConfig) (plugins : List PluginModel)
    (v : Video) : Except String (List Dict × AnalyzerState × List ProgressCall) :=
  let fpsRaw : ℚ := if v.opens then v.fps else 0
  let fps : ℚ := if fpsRaw = 0 then 30 else fpsRaw
  let total_frames : ℤ := if v.opens then v.totalFrames else 0
  let s0 : ℤ := pyTrunc (fps * cfg.sample_interval_seconds)
  if s0 = 0 then .error "integer division or modulo by zero"
  else
    let totalSampled : ℤ := Int.fdiv total_frames s0 + 1
    match extractFramesStreamingGenerator cfg v with
    | .error e => .error e
    | .ok (frames, _, _) =>
      let accF := pipelineRun cfg plugins totalSampled frames
      .ok (accF.frame_analyses, accF.st, accF.trace)

/-- Scene context consumed by ActivityPlugin (produced by EnvironmentPlugin,
outside the modelled core): the `environment` label. -/
structure SceneContext where
  environment : String
deriving Repr, DecidableEq

/-- The `analyze_activities` pass of `_run_post_processing`: each capable
plugin is invoked; a raise is caught and ignored; a truthy (non-empty) return
replaces the accumulated list. -/
def runPostProcessing (plugins : List PluginModel) (frames : List Dict) : List Activity :=
  plugins.foldl
    (fun acc p =>
      match p.analyzeActivities with
      | none => acc
      | some f =>
        match f frames with
        | .error _ => acc
        | .ok acts => if acts.isEmpty then acc else acts)
    []

/-- The run-level `summary` dict, restricted to the claim-relevant keys;
absent keys are `none` (the error-path summary carries no
`primary_activity`/`confidence`). -/
structure Summary where
  total_frames_analyzed : Option ℕ := none
  primary_activity : Option String := none
  confidence : Option ℚ := none
  error : Option String := none
deriving Repr, DecidableEq

/-- `VideoAnalysisResult`, restricted to the claim-relevant fields. -/
structure AnalysisResult where
  video_file : String
  detected_activities : List Activity
  frame_analysis : List Dict
  summary : Summary
  error : Option String

/-- `_create_error_result`. -/
def createErrorResult (v : Video) (e : String) : AnalysisResult :=
  { video_file := v.path
    detected_activities := []
    frame_analysis := []
    summary := { error := some e }
    error := some e }

/-- `analyze()`: the initial progress call happens before the `try` block;
run-fatal conditions (missing file, and anything raised inside the streaming
stage) are caught by the catch-all `except` and turned into an error result.
Returns the result together with the full sequence of progress-callback
invocations. -/
def analyze (cfg : AnalysisConfig) (plugins : List PluginModel) (v : Video) :
    AnalysisResult × List ProgressCall :=
  let startCall : ProgressCall := ⟨0, 0, 0, 0⟩
  if v.fileExists = false then
    (createErrorResult v ("Video file not found: " ++ v.path), [startCall])
  else
    match analyzeStreamingOptimized cfg plugins v with
    | .error e => (createErrorResult v e, [startCall])
    | .ok (frames, _st, trace) =>
      let activities := runPostProcessing plugins frames
      ({ video_file := v.path
         detected_activities := activities
         frame_analysis := frames
         summary :=
           { total_frames_analyzed := some frames.length
             primary_activity := some (match activities with
               | [] => "unknown"
               | a :: _ => a.activity)
             confidence := some (match activities with
               | [] => 0
               | a :: _ => a.confidence)
             error := none }
         error := none }, startCall :: trace)

/-! ## ActivityPlugin (plugins/activity.py) -/

def OBJECT_CONFIDENCE_THRESHOLD : ℚ := 0.4

/-- The Counter built in `analyze_activities`: number of detections of
`label` with confidence above the threshold, summed over all frames. -/
def countLabel (frames : List (List DetObj)) (label : String) : ℕ :=
  (frames.map (fun objs =>
    (objs.filter (fun o =>
      decide (OBJECT_CONFIDENCE_THRESHOLD < o.confidence) && o.label == label)).length)).sum

/-- `_detect_swimming`. -/
def detectSwimming (person_ratio : ℚ) (countOf : String → ℕ) (scene : SceneContext) :
    Option Activity :=
  if person_ratio ≤ 0.2 then none
  else
    let water_objects := countOf "boat" + countOf "surfboard" + countOf "umbrella"
    let land_vehicles := countOf "bicycle" + countOf "motorcycle" + countOf "car" + countOf "truck"
    let conf1 : ℚ := if 0 < water_objects ∨ scene.environment = "water" then 0.6 else 0
    let conf2 : ℚ := conf1 + (if land_vehicles = 0 ∧ 0.4 < person_ratio then 0.4 else 0)
    if 0.3 < conf2 then some ⟨"swimming", min conf2 1, ["person"]⟩ else none

/-- `_detect_biking`. -/
def detectBiking (bicycle_ratio : ℚ) (countOf : String → ℕ) (scene : SceneContext)
    (total_frames : ℚ) : List Activity :=
  if bicycle_ratio ≤ 0.1 then []
  else
    let urban_objects := countOf "car" + countOf "truck" + countOf "bus"
    let urban_density : ℚ := (urban_objects : ℚ) / total_frames
    let biking_conf : ℚ :=
      min (bicycle_ratio * 3) 0.8 +
        (if scene.environment = "urban" ∨ 0 < urban_objects then 0.3 else 0)
    let l1 : List Activity :=
      if 0.3 < biking_conf then [⟨"biking", min biking_conf 1, ["bicycle", "person"]⟩] else []
    let l2 : List Activity :=
      if urban_density < 0.15 then
        let mountain_conf := bicycle_ratio * 2 + 0.4
        if 0.4 < mountain_conf then
          [⟨"mountain_biking", min mountain_conf 1, ["bicycle", "person"]⟩]
        else []
      else []
    l1 ++ l2

/-- `_detect_motorcycling`. -/
def detectMotorcycling (motorcycle_ratio : ℚ) : Option Activity :=
  if 0.1 < motorcycle_ratio then
    some ⟨"motorcycling", min (motorcycle_ratio * 3) 0.9, ["motorcycle", "person"]⟩
  else none

/-- `_detect_running`. -/
def detectRunning (person_ratio bicycle_ratio motorcycle_ratio : ℚ)
    (countOf : String → ℕ) (total_frames : ℚ) : Option Activity :=
  if 0.5 < person_ratio ∧ bicycle_ratio < 0.1 ∧ motorcycle_ratio < 0.1 then
    let vehicle_density : ℚ :=
      ((countOf "car" + countOf "bicycle" + countOf "motorcycle" : ℕ) : ℚ) / total_frames
    if vehicle_density < 0.2 then
      some ⟨"running", min (person_ratio * 0.7) 1, ["person"]⟩
    else none
  else none

/-- `_detect_driving`. -/
def detectDriving (car_ratio : ℚ) : Option Activity :=
  if 0.3 < car_ratio then some ⟨"driving", min (car_ratio * 2) 0.9, ["car", "truck", "bus"]⟩
  else none

/-- Stable insert for descending confidence order. -/
def insertDesc (a : Activity) : List Activity → List Activity
  | [] => [a]
  | b :: bs => if a.confidence < b.confidence then b :: insertDesc a bs else a :: b :: bs

/-- Python `sorted(activities, key=lambda x: x.confidence, reverse=True)`:
stable descending sort by confidence. -/
def sortDesc : List Activity → List Activity
  | [] => []
  | a :: rest => insertDesc a (sortDesc rest)

/-- Ranking relation: earlier activity has at least the later's confidence. -/
def confGE (a b : Activity) : Prop := b.confidence ≤ a.confidence

theorem mem_insertDesc {a x : Activity} {l : List Activity} :
    x ∈ insertDesc a l ↔ x = a ∨ x ∈ l := by
  induction l with
  | nil => simp [insertDesc]
  | cons b bs ih =>
    by_cases h : a.confidence < b.confidence
    · simp [insertDesc, h, ih]
      tauto
    · simp [insertDesc, h]

theorem insertDesc_sorted {a : Activity} {l : List Activity}
    (h : l.Pairwise confGE) : (insertDesc a l).Pairwise confGE := by
  induction l with
  | nil => simp [insertDesc, List.pairwise_cons]
  | cons b bs ih =>
    rcases List.pairwise_cons.mp h with ⟨hb, hs⟩
    by_cases hc : a.confidence < b.confidence
    · simp only [insertDesc, if_pos hc]
      refine List.pairwise_cons.mpr ⟨?_, ih hs⟩
      intro x hx
      rcases mem_insertDesc.mp hx with rfl | hx'
      · exact le_of_lt hc
      · exact hb x hx'
    · simp only [insertDesc, if_neg hc]
      push_neg at hc
      refine List.pairwise_cons.mpr ⟨?_, h⟩
      intro x hx
      rcases List.mem_cons.mp hx with rfl | hx'
      · exact hc
      · exact le_trans (hb x hx') hc

theorem sortDesc_sorted (l : List Activity) : (sortDesc l).Pairwise confGE := by
  induction l with
  | nil => simp [sortDesc]
  | cons a rest ih => exact insertDesc_sorted ih

theorem mem_sortDesc {x : Activity} {l : List Activity} :
    x ∈ sortDesc l ↔ x ∈ l := by
  induction l with
  | nil => simp [sortDesc]
  | cons a rest ih => simp [sortDesc, mem_insertDesc, ih]

/-- `analyze_activities`: aggregate label counts over the frame history, form
per-frame-count ratios, run the five detectors in source order, and return
the confidence-ranked list. -/
def analyzeActivitiesCore (frames : List (List DetObj)) (scene : SceneContext) :
    List Activity :=
  if frames.isEmpty then []
  else
    let total : ℚ := frames.length
    let countOf := countLabel frames
    let person_ratio := (countOf "person" : ℚ) / total
    let bicycle_ratio := (countOf "bicycle" : ℚ) / total
    let motorcycle_ratio := (countOf "motorcycle" : ℚ) / total
    let car_ratio := (countOf "car" : ℚ) / total
    let acts :=
      (detectSwimming person_ratio countOf scene).toList ++
      detectBiking bicycle_ratio countOf scene total ++
      (detectMotorcycling motorcycle_ratio).toList ++
      (detectRunning person_ratio bicycle_ratio motorcycle_ratio countOf total).toList ++
      (detectDriving car_ratio).toList
    sortDesc acts

/-- Extract `frame['objects']` from every frame dict; a missing or
wrongly-typed entry models the KeyError that `_run_post_processing`
catches. -/
def framesObjects (frames : List Dict) : Except Unit (List (List DetObj)) :=
  frames.mapM fun d =>
    match dget d "objects" with
    | some (.objs l) => Except.ok l
    | _ => Except.error ()

/-- The ActivityPlugin `analyze_activities` capability over frame dicts, for a
given scene context. -/
def activityCapability (scene : SceneContext) (frames : List Dict) :
    Except Unit (List Activity) :=
  (framesObjects frames).map (fun fo => analyzeActivitiesCore fo scene)

/-! ## Helper lemmas about the micro-batch scheduler -/

/-- The keys of the scheduler's own per-frame record, plus the popped pixel
key.  A plugin that respects the plugin contract (its `analyze_frame` returns
its own annotation delta) never rebinds these. -/
def reservedKeys : List String :=
  ["start_time_ms", "end_time_ms", "duration_ms", "frame_idx", "frame"]

/-- The plugin never returns a dict binding key `k`. -/
def NeverEmits (p : PluginModel) (k : String) : Prop :=
  ∀ buf d res dur, p.analyzeFrame buf d = .ok res dur → dget res k = none

/-- A contract-respecting plugin: it never rebinds the scheduler's keys. -/
def GoodPlugin (p : PluginModel) : Prop :=
  ∀ k ∈ reservedKeys, NeverEmits p k

theorem initFrameResult_start (fd : FrameData) :
    dget (initFrameResult fd) "start_time_ms" = some (.int fd.timestamp_ms) := by
  simp [initFrameResult, dget]

theorem initFrameResult_frame_idx (fd : FrameData) :
    dget (initFrameResult fd) "frame_idx" = some (.int fd.frame_idx) := by
  simp [initFrameResult, dget]

theorem initFrameResult_frame (fd : FrameData) :
    dget (initFrameResult fd) "frame" = none := by
  simp [initFrameResult, dget]

/-- One merge step never changes the value at a key the plugin cannot emit. -/
theorem dget_merge_step (r res : Dict) (k : String)
    (h : dget res k = none ∨ res = r) :
    dget (if res.isEmpty then r else dupdate r res) k = dget r k := by
  by_cases he : res.isEmpty
  · simp [he]
  · rcases h with h | rfl
    · simp [he, dget_dupdate_of_not_mem _ _ _ h]
    · simp [he, dget_dupdate_self]

theorem safePluginCall_fst_ok (st : AnalyzerState) (p : PluginModel) (frame : Option ℕ)
    (r res : Dict) (dur : ℕ) (h : p.analyzeFrame frame r = .ok res dur) :
    (safePluginCall st p frame r).1 = res := by
  simp [safePluginCall, h]

theorem safePluginCall_fst_exn (st : AnalyzerState) (p : PluginModel) (frame : Option ℕ)
    (r : Dict) (dur : ℕ) (h : p.analyzeFrame frame r = .exn dur) :
    (safePluginCall st p frame r).1 = r := by
  simp [safePluginCall, h]

theorem initPluginStats_counters (st : AnalyzerState) (name : String) :
    (initPluginStats st name).plugin_frame_counters = st.plugin_frame_counters := by
  unfold initPluginStats
  split <;> rfl

theorem safePluginCall_counters (st : AnalyzerState) (p : PluginModel) (frame : Option ℕ)
    (r : Dict) :
    (safePluginCall st p frame r).2.plugin_frame_counters = st.plugin_frame_counters := by
  unfold safePluginCall
  cases h : p.analyzeFrame frame r <;>
    simp [h, initPluginStats_counters]

/-- Per-frame merged dict: the value the run branch of the inner loop stores. -/
theorem pluginOverBatch_cons (cfg : AnalysisConfig) (p : PluginModel) (fd : FrameData)
    (r : Dict) (rest : List (FrameData × Dict)) (st : AnalyzerState) :
    pluginOverBatch cfg p ((fd, r) :: rest) st =
      if (shouldRunPlugin cfg st p.name fd.frame_idx).1 then
        ((if (safePluginCall (shouldRunPlugin cfg st p.name fd.frame_idx).2 p fd.frame r).1.isEmpty
            then r
            else dupdate r
              (safePluginCall (shouldRunPlugin cfg st p.name fd.frame_idx).2 p fd.frame r).1) ::
          (pluginOverBatch cfg p rest
            (safePluginCall (shouldRunPlugin cfg st p.name fd.frame_idx).2 p fd.frame r).2).1,
         (pluginOverBatch cfg p rest
            (safePluginCall (shouldRunPlugin cfg st p.name fd.frame_idx).2 p fd.frame r).2).2)
      else
        ((r :: (pluginOverBatch cfg p rest (shouldRunPlugin cfg st p.name fd.frame_idx).2).1),
         (pluginOverBatch cfg p rest (shouldRunPlugin cfg st p.name fd.frame_idx).2).2) := by
  rw [pluginOverBatch]

theorem pluginOverBatch_length (cfg : AnalysisConfig) (p : PluginModel) :
    ∀ (pairs : List (FrameData × Dict)) (st : AnalyzerState),
      (pluginOverBatch cfg p pairs st).1.length = pairs.length := by
  intro pairs
  induction pairs with
  | nil => intro st; rfl
  | cons pr rest ih =>
    intro st
    obtain ⟨fd, r⟩ := pr
    rw [pluginOverBatch_cons]
    by_cases hrun : (shouldRunPlugin cfg st p.name fd.frame_idx).1 <;>
      simp [hrun, ih]

theorem pluginOverBatch_map_dget (cfg : AnalysisConfig) (p : PluginModel) (k : String)
    (hp : NeverEmits p k) :
    ∀ (pairs : List (FrameData × Dict)) (st : AnalyzerState),
      (pluginOverBatch cfg p pairs st).1.map (fun d => dget d k) =
        pairs.map (fun pr => dget pr.2 k) := by
  intro pairs
  induction pairs with
  | nil => intro st; rfl
  | cons pr rest ih =>
    intro st
    obtain ⟨fd, r⟩ := pr
    rw [pluginOverBatch_cons]
    by_cases hrun : (shouldRunPlugin cfg st p.name fd.frame_idx).1
    · set st1 := (shouldRunPlugin cfg st p.name fd.frame_idx).2 with hst1
      have hhead : dget (if (safePluginCall st1 p fd.frame r).1.isEmpty then r
          else dupdate r (safePluginCall st1 p fd.frame r).1) k = dget r k := by
        cases hcall : p.analyzeFrame fd.frame r with
        | ok res dur =>
          rw [safePluginCall_fst_ok st1 p fd.frame r res dur hcall]
          exact dget_merge_step r res k (Or.inl (hp _ _ _ _ hcall))
        | exn dur =>
          rw [safePluginCall_fst_exn st1 p fd.frame r dur hcall]
          exact dget_merge_step r r k (Or.inr rfl)
      rw [if_pos hrun, List.map_cons, List.map_cons]
      simp only [List.cons.injEq]
      exact ⟨hhead, ih _⟩
    · simp [hrun, ih]

theorem processMicroBatch_foldl_map_dget (cfg : AnalysisConfig) (k : String) :
    ∀ (ps : List PluginModel) (batch : List FrameData) (results : List Dict)
      (st : AnalyzerState),
      (∀ p ∈ ps, NeverEmits p k) → results.length = batch.length →
      ((ps.foldl (fun acc p => pluginOverBatch cfg p (batch.zip acc.1) acc.2)
          (results, st)).1.map (fun d => dget d k) = results.map (fun d => dget d k) ∧
        (ps.foldl (fun acc p => pluginOverBatch cfg p (batch.zip acc.1) acc.2)
          (results, st)).1.length = batch.length) := by
  intro ps
  induction ps with
  | nil =>
    intro batch results st _ hlen
    exact ⟨rfl, hlen⟩
  | cons p ps ih =>
    intro batch results st hne hlen
    have hzlen : (batch.zip results).length = batch.length := by
      simp [List.length_zip, hlen]
    have hlen1 : (pluginOverBatch cfg p (batch.zip results) st).1.length = batch.length := by
      rw [pluginOverBatch_length]; exact hzlen
    have hmap1 : (pluginOverBatch cfg p (batch.zip results) st).1.map (fun d => dget d k) =
        results.map (fun d => dget d k) := by
      rw [pluginOverBatch_map_dget cfg p k (hne p (by simp))]
      have hsnd : (batch.zip results).map (fun pr => dget pr.2 k) =
          results.map (fun d => dget d k) := by
        have h1 : (batch.zip results).map Prod.snd = results :=
          List.map_snd_zip batch results (le_of_eq hlen)
        calc (batch.zip results).map (fun pr => dget pr.2 k)
            = ((batch.zip results).map Prod.snd).map (fun d => dget d k) := by
              rw [List.map_map]; rfl
          _ = results.map (fun d => dget d k) := by rw [h1]
      exact hsnd
    have := ih batch (pluginOverBatch cfg p (batch.zip results) st).1
      (pluginOverBatch cfg p (batch.zip results) st).2
      (fun q hq => hne q (by simp [hq])) hlen1
    refine ⟨?_, this.2⟩
    rw [List.foldl_cons]
    rw [this.1, hmap1]

theorem processMicroBatch_map_dget (cfg : AnalysisConfig) (ps : List PluginModel)
    (batch : List FrameData) (st : AnalyzerState) (k : String)
    (hne : ∀ p ∈ ps, NeverEmits p k) :
    (processMicroBatch cfg ps batch st).1.map (fun d => dget d k) =
      batch.map (fun fd => dget (initFrameResult fd) k) := by
  have h := processMicroBatch_foldl_map_dget cfg k ps batch (batch.map initFrameResult) st
    hne (by simp)
  unfold processMicroBatch
  rw [h.1, List.map_map]
  rfl

theorem processMicroBatch_foldl_length (cfg : AnalysisConfig) :
    ∀ (ps : List PluginModel) (batch : List FrameData) (results : List Dict)
      (st : AnalyzerState), results.length = batch.length →
      (ps.foldl (fun acc p => pluginOverBatch cfg p (batch.zip acc.1) acc.2)
        (results, st)).1.length = batch.length := by
  intro ps
  induction ps with
  | nil => intro batch results st hlen; exact hlen
  | cons p ps ih =>
    intro batch results st hlen
    rw [List.foldl_cons]
    exact ih batch _ _ (by rw [pluginOverBatch_length]; simp [List.length_zip, hlen])

theorem processMicroBatch_length (cfg : AnalysisConfig) (ps : List PluginModel)
    (batch : List FrameData) (st : AnalyzerState) :
    (processMicroBatch cfg ps batch st).1.length = batch.length := by
  unfold processMicroBatch
  exact processMicroBatch_foldl_length cfg ps batch _ st (by simp)

/-! ## Helper lemmas about the streaming loop -/

theorem runBatch_def (cfg : AnalysisConfig) (ps : List PluginModel) (tot : ℤ)
    (acc : StreamAcc) (b : List FrameData) :
    runBatch cfg ps tot acc b =
      { frame_analyses := acc.frame_analyses ++ (processMicroBatch cfg ps b acc.st).1
        batch := []
        n := (pbarUpdate tot acc.n (processMicroBatch cfg ps b acc.st).1.length acc.trace).1
        st := (processMicroBatch cfg ps b acc.st).2
        trace := (pbarUpdate tot acc.n (processMicroBatch cfg ps b acc.st).1.length acc.trace).2 } :=
  rfl

theorem pbarUpdate_fst (tot : ℤ) (n k : ℕ) (trace : List ProgressCall) :
    (pbarUpdate tot n k trace).1 = n + k := by
  unfold pbarUpdate
  split <;> rfl

theorem pbarUpdate_snd_of_ne (tot : ℤ) (n k : ℕ) (trace : List ProgressCall) (h : ¬ tot = 0) :
    (pbarUpdate tot n k trace).2 =
      trace ++ [⟨min 100 (((n + k : ℕ) : ℚ) / (tot : ℚ) * 100), 0, n + k, tot⟩] := by
  simp [pbarUpdate, h]

theorem streamLoop_nil (cfg : AnalysisConfig) (ps : List PluginModel) (tot : ℤ)
    (acc : StreamAcc) : streamLoop cfg ps tot [] acc = acc := rfl

theorem streamLoop_cons (cfg : AnalysisConfig) (ps : List PluginModel) (tot : ℤ)
    (fd : FrameData) (rest : List FrameData) (acc : StreamAcc) :
    streamLoop cfg ps tot (fd :: rest) acc =
      if cfg.frame_buffer_limit ≤ (acc.batch ++ [fd]).length then
        streamLoop cfg ps tot rest (runBatch cfg ps tot acc (acc.batch ++ [fd]))
      else streamLoop cfg ps tot rest { acc with batch := acc.batch ++ [fd] } :=
  rfl

/-- Invariant: the permanent list plus the pending batch always carry, key by
key (for keys no plugin emits), exactly the generator's records in order. -/
theorem streamLoop_map_dget (cfg : AnalysisConfig) (ps : List PluginModel) (tot : ℤ)
    (k : String) (hne : ∀ p ∈ ps, NeverEmits p k) :
    ∀ (rest : List FrameData) (acc : StreamAcc),
      (streamLoop cfg ps tot rest acc).frame_analyses.map (fun d => dget d k) ++
        (streamLoop cfg ps tot rest acc).batch.map (fun fd => dget (initFrameResult fd) k) =
      acc.frame_analyses.map (fun d => dget d k) ++
        (acc.batch ++ rest).map (fun fd => dget (initFrameResult fd) k) := by
  intro rest
  induction rest with
  | nil =>
    intro acc
    rw [streamLoop_nil]
    simp
  | cons fd rest ih =>
    intro acc
    rw [streamLoop_cons]
    by_cases hlim : cfg.frame_buffer_limit ≤ (acc.batch ++ [fd]).length
    · rw [if_pos hlim, ih]
      rw [runBatch_def]
      simp only [List.map_append, List.map_nil, List.append_nil, List.nil_append]
      rw [processMicroBatch_map_dget cfg ps _ _ k hne]
      simp [List.map_append]
    · rw [if_neg hlim, ih]
      simp [List.map_append]

/-- Invariant: frames flow conservatively through the loop (progress-bar
position plus pending-batch size). -/
theorem streamLoop_count (cfg : AnalysisConfig) (ps : List PluginModel) (tot : ℤ) :
    ∀ (rest : List FrameData) (acc : StreamAcc),
      (streamLoop cfg ps tot rest acc).n + (streamLoop cfg ps tot rest acc).batch.length =
        acc.n + acc.batch.length + rest.length := by
  intro rest
  induction rest with
  | nil =>
    intro acc
    rw [streamLoop_nil]
    simp
  | cons fd rest ih =>
    intro acc
    rw [streamLoop_cons]
    by_cases hlim : cfg.frame_buffer_limit ≤ (acc.batch ++ [fd]).length
    · rw [if_pos hlim, ih, runBatch_def]
      simp only [pbarUpdate_fst, processMicroBatch_length]
      simp
      omega
    · rw [if_neg hlim, ih]
      simp
      omega

/-- Well-formedness of a partial progress trace with respect to the current
bar position `n` and bar total `tot`. -/
def TraceOK (tot : ℤ) (tr : List ProgressCall) (n : ℕ) : Prop :=
  List.Chain' (fun a b => a.frames_done ≤ b.frames_done) tr ∧
  (∀ c ∈ tr, c.frames_done ≤ n ∧ c.frames_total = tot) ∧
  (tr = [] ∨ ∃ h : tr ≠ [], (tr.getLast h).frames_done = n) ∧
  (n ≠ 0 → tr ≠ [])

theorem traceOK_append (tot : ℤ) (tr : List ProgressCall) (n n' : ℕ) (c : ProgressCall)
    (h : TraceOK tot tr n) (hn : n ≤ n') (hc : c.frames_done = n' ∧ c.frames_total = tot) :
    TraceOK tot (tr ++ [c]) n' := by
  obtain ⟨hchain, hall, hlast, hne⟩ := h
  refine ⟨?_, ?_, ?_, ?_⟩
  · rw [List.chain'_append]
    refine ⟨hchain, List.chain'_singleton _, ?_⟩
    intro x hx y hy
    simp at hy
    rcases hlast with rfl | ⟨hne', hl⟩
    · simp at hx
    · rw [List.getLast?_eq_getLast _ hne'] at hx
      simp at hx
      subst hx
      rw [← hy, hl, hc.1]
      exact hn
  · intro d hd
    rcases List.mem_append.mp hd with hd | hd
    · exact ⟨le_trans (hall d hd).1 hn, (hall d hd).2⟩
    · simp at hd
      subst hd
      exact ⟨le_of_eq hc.1, hc.2⟩
  · refine Or.inr ⟨by simp, ?_⟩
    rw [List.getLast_append]
    exact hc.1
  · intro _
    simp

/-- The streaming loop preserves trace well-formedness (for a truthy bar
total). -/
theorem streamLoop_trace (cfg : AnalysisConfig) (ps : List PluginModel) (tot : ℤ)
    (htot : ¬ tot = 0) :
    ∀ (rest : List FrameData) (acc : StreamAcc), TraceOK tot acc.trace acc.n →
      TraceOK tot (streamLoop cfg ps tot rest acc).trace (streamLoop cfg ps tot rest acc).n := by
  intro rest
  induction rest with
  | nil =>
    intro acc h
    rw [streamLoop_nil]
    exact h
  | cons fd rest ih =>
    intro acc h
    rw [streamLoop_cons]
    by_cases hlim : cfg.frame_buffer_limit ≤ (acc.batch ++ [fd]).length
    · rw [if_pos hlim]
      refine ih _ ?_
      rw [runBatch_def]
      simp only [pbarUpdate_fst, pbarUpdate_snd_of_ne _ _ _ _ htot]
      exact traceOK_append tot acc.trace acc.n _ _ h (by omega) ⟨rfl, rfl⟩
    · rw [if_neg hlim]
      exact ih _ h

/-! ## Whole-run helpers -/

theorem string_append_ne_empty (s t : String) (h : s ≠ "") : s ++ t ≠ "" := by
  obtain ⟨ld⟩ := s
  obtain ⟨td⟩ := t
  intro hc
  apply h
  have hd : ld ++ td = ([] : List Char) := congrArg String.data hc
  have hnil : ld = [] := (List.append_eq_nil.mp hd).1
  rw [hnil]

/-- The record sequence yielded by the generator for a readable video with
positive fps. -/
def genFrames (cfg : AnalysisConfig) (v : Video) : List FrameData :=
  (rangeStep v.totalFrames.toNat (sampleStride v.fps cfg.sample_interval_seconds) 0).map
    (mkFrameData v.fps v.totalFrames.toNat (sampleStride v.fps cfg.sample_interval_seconds))

/-- `total_sampled`, the scheduler's expected sample count
(`total_frames // int(fps*interval) + 1`). -/
def expectedTotal (cfg : AnalysisConfig) (v : Video) : ℤ :=
  Int.fdiv v.totalFrames (pyTrunc (v.fps * cfg.sample_interval_seconds)) + 1

/-- The loop accumulator at the end of a successful streaming stage (main
loop plus final partial batch). -/
def pipelineFinal (cfg : AnalysisConfig) (ps : List PluginModel) (v : Video) : StreamAcc :=
  pipelineRun cfg ps (expectedTotal cfg v) (genFrames cfg v)

theorem analyzeStreamingOptimized_ok (cfg : AnalysisConfig) (ps : List PluginModel)
    (v : Video) (hopens : v.opens = true) (hfps : 0 < v.fps) (hT : 0 < v.totalFrames)
    (hs0 : ¬ pyTrunc (v.fps * cfg.sample_interval_seconds) = 0) :
    analyzeStreamingOptimized cfg ps v =
      Except.ok ((pipelineFinal cfg ps v).frame_analyses, (pipelineFinal cfg ps v).st,
        (pipelineFinal cfg ps v).trace) := by
  have h2 : ¬ v.fps ≤ 0 := not_le.mpr hfps
  have h3 : ¬ v.totalFrames ≤ 0 := not_le.mpr hT
  have h4 : ¬ v.fps = 0 := ne_of_gt hfps
  simp only [analyzeStreamingOptimized, extractFramesStreamingGenerator, hopens, h2, h3, h4,
    hs0, if_true, if_false, ite_true, ite_false, Bool.true_eq_false, pipelineFinal,
    pipelineRun, genFrames, expectedTotal]

theorem analyzeStreamingOptimized_fatal (cfg : AnalysisConfig) (ps : List PluginModel)
    (v : Video) (h : v.opens = false ∨ v.totalFrames ≤ 0) :
    ∃ e, analyzeStreamingOptimized cfg ps v = .error e ∧ e ≠ "" := by
  by_cases hop : v.opens = true
  · have hT : v.totalFrames ≤ 0 := by
      rcases h with h | h
      · rw [hop] at h; exact absurd h (by simp)
      · exact h
    by_cases hz : pyTrunc ((if v.fps = 0 then 30 else v.fps) * cfg.sample_interval_seconds) = 0
    · refine ⟨"integer division or modulo by zero", ?_, by decide⟩
      simp only [analyzeStreamingOptimized, hop, ite_true]
      rw [if_pos hz]
    · refine ⟨"Invalid video file: cannot determine frame count", ?_, by decide⟩
      simp only [analyzeStreamingOptimized, extractFramesStreamingGenerator, hop, ite_true,
        Bool.true_eq_false, if_false, if_pos hT]
      rw [if_neg hz]
  · have hop' : v.opens = false := by
      cases hv : v.opens
      · rfl
      · exact absurd hv hop
    by_cases hz : pyTrunc ((30 : ℚ) * cfg.sample_interval_seconds) = 0
    · refine ⟨"integer division or modulo by zero", ?_, by decide⟩
      simp [analyzeStreamingOptimized, hop', hz]
    · refine ⟨"Cannot open video: " ++ v.path, ?_,
        string_append_ne_empty _ _ (by decide)⟩
      simp [analyzeStreamingOptimized, extractFramesStreamingGenerator, hop', hz]

theorem analyzeStreamingOptimized_zero (cfg : AnalysisConfig) (ps : List PluginModel)
    (v : Video)
    (hs0 : pyTrunc ((if (if v.opens then v.fps else 0) = 0 then 30
      else (if v.opens then v.fps else 0)) * cfg.sample_interval_seconds) = 0) :
    analyzeStreamingOptimized cfg ps v = .error "integer division or modulo by zero" := by
  unfold analyzeStreamingOptimized
  rw [if_pos hs0]

/-- For keys no plugin emits, the permanent result list of a streaming run
carries exactly the generator's values, in generator order. -/
theorem pipelineRun_map_dget (cfg : AnalysisConfig) (ps : List PluginModel) (tot : ℤ)
    (fl : List FrameData) (k : String) (hne : ∀ p ∈ ps, NeverEmits p k) :
    (pipelineRun cfg ps tot fl).frame_analyses.map (fun d => dget d k) =
      fl.map (fun fd => dget (initFrameResult fd) k) := by
  unfold pipelineRun
  have hs := streamLoop_map_dget cfg ps tot k hne fl
    { frame_analyses := [], batch := [], n := 0, st := {}, trace := [] }
  simp only [List.map_nil, List.nil_append] at hs
  set acc := streamLoop cfg ps tot fl
    { frame_analyses := [], batch := [], n := 0, st := {}, trace := [] } with hacc
  by_cases hb : acc.batch.isEmpty
  · rw [if_pos hb]
    have : acc.batch = [] := List.isEmpty_iff.mp hb
    rw [this] at hs
    simpa using hs
  · rw [if_neg hb]
    rw [runBatch_def]
    simp only [List.map_append]
    rw [processMicroBatch_map_dget cfg ps _ _ k hne]
    exact hs

/-- A streaming run processes every generated frame: the final bar position
is the number of samples, and no pending batch remains. -/
theorem pipelineRun_count (cfg : AnalysisConfig) (ps : List PluginModel) (tot : ℤ)
    (fl : List FrameData) :
    (pipelineRun cfg ps tot fl).n = fl.length ∧ (pipelineRun cfg ps tot fl).batch = [] := by
  unfold pipelineRun
  have hs := streamLoop_count cfg ps tot fl
    { frame_analyses := [], batch := [], n := 0, st := {}, trace := [] }
  simp only [List.length_nil] at hs
  set acc := streamLoop cfg ps tot fl
    { frame_analyses := [], batch := [], n := 0, st := {}, trace := [] } with hacc
  by_cases hb : acc.batch.isEmpty
  · rw [if_pos hb]
    have hbe : acc.batch = [] := List.isEmpty_iff.mp hb
    rw [hbe] at hs
    simp at hs
    exact ⟨by omega, hbe⟩
  · rw [if_neg hb, runBatch_def]
    refine ⟨?_, rfl⟩
    simp only [pbarUpdate_fst, processMicroBatch_length]
    omega

/-- A streaming run's progress trace is well-formed. -/
theorem pipelineRun_trace (cfg : AnalysisConfig) (ps : List PluginModel) (tot : ℤ)
    (fl : List FrameData) (htot : ¬ tot = 0) :
    TraceOK tot (pipelineRun cfg ps tot fl).trace (pipelineRun cfg ps tot fl).n := by
  unfold pipelineRun
  have hinit : TraceOK tot ([] : List ProgressCall) 0 := by
    refine ⟨List.chain'_nil, by simp, Or.inl rfl, by simp⟩
  have hs := streamLoop_trace cfg ps tot htot fl
    { frame_analyses := [], batch := [], n := 0, st := {}, trace := [] } hinit
  set acc := streamLoop cfg ps tot fl
    { frame_analyses := [], batch := [], n := 0, st := {}, trace := [] } with hacc
  by_cases hb : acc.batch.isEmpty
  · rw [if_pos hb]
    exact hs
  · rw [if_neg hb]
    rw [runBatch_def]
    simp only [pbarUpdate_fst, pbarUpdate_snd_of_ne _ _ _ _ htot]
    exact traceOK_append _ acc.trace acc.n _ _ hs (by omega) ⟨rfl, rfl⟩

/-- Inversion: any successful streaming stage produced its frames through the
batching loop over some generated frame list. -/
theorem analyzeStreamingOptimized_ok_inv (cfg : AnalysisConfig) (ps : List PluginModel)
    (v : Video) (frames : List Dict) (st : AnalyzerState) (tr : List ProgressCall)
    (hok : analyzeStreamingOptimized cfg ps v = .ok (frames, st, tr)) :
    ∃ (fl : List FrameData) (tot : ℤ),
      frames = (pipelineRun cfg ps tot fl).frame_analyses ∧
        tr = (pipelineRun cfg ps tot fl).trace := by
  simp only [analyzeStreamingOptimized] at hok
  repeat' split at hok
  all_goals first
    | exact Except.noConfusion hok
    | (simp only [Except.ok.injEq, Prod.mk.injEq] at hok
       exact ⟨_, _, hok.1.symm, hok.2.2.symm⟩)

/-! ## Witness fixtures -/

/-- A contract-respecting object-detection stand-in used by witnesses: writes
an `objects` annotation on every frame. -/
def objDetModel : PluginModel :=
  { name := "ObjectDetectionPlugin"
    analyzeFrame := fun _ _ => .ok [("objects", .objs [⟨"person", 9/10⟩])] 1 }

theorem objDetModel_good : GoodPlugin objDetModel := by
  intro k hk buf d res dur h
  have hres : res = [("objects", .objs [⟨"person", 9/10⟩])] := by
    cases h
    rfl
  subst hres
  fin_cases hk <;> decide

/-! ## Claim theorems -/

/-- C3: `analyze()` never raises past the coordinator boundary (the embedding
is a total function into `AnalysisResult`; every exception inside the `try`
is caught); every run-fatal condition — file missing, video unopenable,
frame count undeterminable — yields a structured result whose `error` field
is a non-empty string and whose `frame_analysis` list is empty. -/
theorem claim3_run_fatal_returns_error_result (cfg : AnalysisConfig)
    (ps : List PluginModel) (v : Video)
    (h : v.fileExists = false ∨ v.opens = false ∨ v.totalFrames ≤ 0) :
    ∃ e, (analyze cfg ps v).1.error = some e ∧ e ≠ "" ∧
      (analyze cfg ps v).1.frame_analysis = [] := by
  by_cases hex : v.fileExists = true
  · have hfatal : v.opens = false ∨ v.totalFrames ≤ 0 := by
      rcases h with h | h | h
      · rw [hex] at h
        exact absurd h (by simp)
      · exact Or.inl h
      · exact Or.inr h
    obtain ⟨e, he, hne⟩ := analyzeStreamingOptimized_fatal cfg ps v hfatal
    refine ⟨e, ?_, hne, ?_⟩ <;>
      simp [analyze, hex, he, createErrorResult]
  · have hex' : v.fileExists = false := by
      cases hv : v.fileExists
      · rfl
      · exact absurd hv hex
    refine ⟨"Video file not found: " ++ v.path, ?_,
      string_append_ne_empty _ _ (by decide), ?_⟩ <;>
      simp [analyze, hex', createErrorResult]

theorem claim3_witness :
    ∃ e, (analyze {} [] ⟨"missing.mp4", false, false, 30, 0⟩).1.error = some e ∧ e ≠ "" ∧
      (analyze {} [] ⟨"missing.mp4", false, false, 30, 0⟩).1.frame_analysis = [] :=
  claim3_run_fatal_returns_error_result {} [] ⟨"missing.mp4", false, false, 30, 0⟩
    (Or.inl rfl)

/-- C9: for a readable video whose `int(fps * sample_interval_seconds)` is 0
(sample interval shorter than one native frame period), `analyze()` returns
an error-tagged structured result with empty `frame_analysis` instead of
per-frame data and does not raise: the generator guards its stride with
`max(1, ...)`, but the scheduler's expected-sample-count computation divides
by the unguarded stride, and the resulting `ZeroDivisionError` is caught at
the `analyze()` boundary. -/
theorem claim9_subframe_interval_error_result (cfg : AnalysisConfig)
    (ps : List PluginModel) (v : Video) (hex : v.fileExists = true)
    (hop : v.opens = true) (hfps : 0 < v.fps) (hT : 0 < v.totalFrames)
    (hz : pyTrunc (v.fps * cfg.sample_interval_seconds) = 0) :
    (analyze cfg ps v).1.error = some "integer division or modulo by zero" ∧
      (analyze cfg ps v).1.frame_analysis = [] ∧
      sampleStride (v.fps) cfg.sample_interval_seconds = 1 := by
  have h4 : ¬ v.fps = 0 := ne_of_gt hfps
  have hzz : pyTrunc ((if (if v.opens then v.fps else 0) = 0 then 30
      else (if v.opens then v.fps else 0)) * cfg.sample_interval_seconds) = 0 := by
    simpa [hop, h4] using hz
  have he := analyzeStreamingOptimized_zero cfg ps v hzz
  refine ⟨?_, ?_, ?_⟩
  · simp [analyze, hex, he, createErrorResult]
  · simp [analyze, hex, he, createErrorResult]
  · unfold sampleStride
    rw [hz]
    rfl

theorem claim9_witness :
    (analyze { sample_interval_seconds := 1/100 } []
        ⟨"v.mp4", true, true, 30, 100⟩).1.error =
      some "integer division or modulo by zero" ∧
    (analyze { sample_interval_seconds := 1/100 } []
        ⟨"v.mp4", true, true, 30, 100⟩).1.frame_analysis = [] := by
  have h := claim9_subframe_interval_error_result { sample_interval_seconds := 1/100 } []
    ⟨"v.mp4", true, true, 30, 100⟩ rfl rfl (by norm_num) (by norm_num)
    (by show pyTrunc ((30 : ℚ) * (1/100)) = 0; norm_num [pyTrunc])
  exact ⟨h.1, h.2.1⟩

/-- C2: the CLEANING phase is unconditional — whatever the outcome of the
plugin-processing body (success or raise), `_process_and_cleanup_batch`'s
`finally` block releases every frame's pixel buffer before the scheduler
moves on; and in any run with contract-respecting plugins, no record
appended to the permanent `frame_analysis` list carries a `frame`
(pixel-buffer) entry. -/
theorem claim2_pixel_buffers_released :
    (∀ (body : Except String (List Dict × AnalyzerState)) (batch : List FrameData)
        (st : AnalyzerState) (tot : ℤ) (n : ℕ) (trace : List ProgressCall),
      ∀ fd ∈ (processAndCleanupBatchWith body batch st tot n trace).2.1, fd.frame = none) ∧
    (∀ (cfg : AnalysisConfig) (ps : List PluginModel) (v : Video),
      (∀ p ∈ ps, GoodPlugin p) →
      ∀ d ∈ (analyze cfg ps v).1.frame_analysis, dget d "frame" = none) := by
  constructor
  · intro body batch st tot n trace fd hfd
    have hfd' : fd ∈ cleanupBatchFrames batch := by
      cases body with
      | ok pr => exact hfd
      | error e => exact hfd
    obtain ⟨fd₀, _, rfl⟩ := List.mem_map.mp hfd'
    rfl
  · intro cfg ps v hg d hd
    unfold analyze at hd
    split at hd
    · simp [createErrorResult] at hd
    · split at hd
      · simp [createErrorResult] at hd
      · rename_i frames st' trace heq
        obtain ⟨fl, tot, hframes, -⟩ :=
          analyzeStreamingOptimized_ok_inv cfg ps v frames st' trace heq
        have hd2 : d ∈ frames := hd
        rw [hframes] at hd2
        have hmem : dget d "frame" ∈
            (pipelineRun cfg ps tot fl).frame_analyses.map (fun d => dget d "frame") :=
          List.mem_map_of_mem _ hd2
        rw [pipelineRun_map_dget cfg ps tot fl "frame"
          (fun p hp => hg p hp "frame" (by simp [reservedKeys]))] at hmem
        obtain ⟨fd, -, hval⟩ := List.mem_map.mp hmem
        rw [← hval, initFrameResult_frame]

theorem claim2_witness :
    (∀ fd ∈ (processAndCleanupBatchWith (.error "boom")
        [⟨some 0, 0, 2500, 0, 1⟩] {} 3 0 []).2.1, fd.frame = none) ∧
    (∀ d ∈ (analyze {} [objDetModel] ⟨"w.mp4", true, true, 1, 3⟩).1.frame_analysis,
      dget d "frame" = none) := by
  constructor
  · intro fd hfd
    exact claim2_pixel_buffers_released.1 (.error "boom") _ {} 3 0 [] fd hfd
  · intro d hd
    refine claim2_pixel_buffers_released.2 {} [objDetModel] ⟨"w.mp4", true, true, 1, 3⟩
      ?_ d hd
    intro p hp
    rw [List.mem_singleton] at hp
    subst hp
    exact objDetModel_good

theorem max_one_sampleStride (fps i : ℚ) :
    max 1 (sampleStride fps i) = sampleStride fps i :=
  max_eq_right (le_max_left _ _)

/-- C4 counterexample: with fps = 3 and a 2.5-second interval the generator's
stride is `int(3 * 2.5) = 7` (truncation), so sample 1 is read at native
position 7 and the positions are [0, 7, 14]; the claim's rule
`i * round(fps * interval)` predicts stride `round(7.5) = 8` and positions
[0, 8] — already sample 1's position differs (7 ≠ 1 * 8). -/
theorem claim4_counterexample :
    sampleStride 3 (5/2) = 7 ∧
    pyRound ((3 : ℚ) * (5/2)) = 8 ∧
    (genFrames { sample_interval_seconds := 5/2 } ⟨"cx.mp4", true, true, 3, 16⟩).map
      (fun r => r.frame_idx) = [0, 7, 14] ∧
    (7 : ℕ) ≠ 1 * (pyRound ((3 : ℚ) * (5/2))).toNat := by
  have hs : sampleStride 3 (5/2) = 7 := by
    have h1 : (3 : ℚ) * (5/2) = 15/2 := by norm_num
    have h2 : pyTrunc (15/2 : ℚ) = 7 := by norm_num [pyTrunc]
    simp [sampleStride, h1, h2]
  have hround : pyRound ((3 : ℚ) * (5/2)) = 8 := by
    have h1 : (3 : ℚ) * (5/2) = 15/2 := by norm_num
    rw [h1]
    have h2 : ⌊(15/2 : ℚ)⌋ = 7 := by norm_num
    unfold pyRound
    rw [h2]
    norm_num
  have hsteps : rangeStep 16 7 0 = [0, 7, 14] := by
    rw [rangeStep_cons (by norm_num)]
    norm_num
    rw [rangeStep_cons (by norm_num)]
    norm_num
    rw [rangeStep_cons (by norm_num)]
    norm_num
    exact rangeStep_nil (by norm_num)
  refine ⟨hs, hround, ?_, ?_⟩
  · show ((rangeStep ((16 : ℤ)).toNat (sampleStride 3 (5/2)) 0).map
      (mkFrameData 3 ((16 : ℤ)).toNat (sampleStride 3 (5/2)))).map (fun r => r.frame_idx) =
      [0, 7, 14]
    rw [hs, show ((16 : ℤ)).toNat = 16 from rfl, hsteps]
    simp [mkFrameData]
  · rw [hround]
    decide

/-- C4 (amended): for every stream with fps > 0 and native frame count T > 0,
sample `i` is read at native position `i * s` where
`s = max(1, int(fps * interval))` — truncation, not the claimed rounding;
each record's `start_time_ms` is `round(pos/fps*1000)`, its `end_time_ms` is
the timestamp of the next sample position clamped to the stream end, and
consecutive records tile: each `end_time_ms` equals the next record's
`start_time_ms`, the last record ending at the stream's final timestamp. -/
theorem claim4_amended_sampling (cfg : AnalysisConfig) (v : Video)
    (hop : v.opens = true) (hfps : 0 < v.fps) (hT : 0 < v.totalFrames) :
    ∃ recs, extractFramesStreamingGenerator cfg v = .ok (recs, v.fps, v.totalFrames) ∧
      (∀ (i : ℕ) (h : i < recs.length),
        (recs.get ⟨i, h⟩).frame_idx = i * sampleStride v.fps cfg.sample_interval_seconds) ∧
      (∀ r ∈ recs,
        r.timestamp_ms = pyRound ((r.frame_idx : ℚ) / v.fps * 1000) ∧
        r.end_timestamp_ms = pyRound
          (((min (r.frame_idx + sampleStride v.fps cfg.sample_interval_seconds)
              v.totalFrames.toNat : ℕ) : ℚ) / v.fps * 1000)) ∧
      List.Chain' (fun a b => a.end_timestamp_ms = b.timestamp_ms) recs ∧
      (∀ h : recs ≠ [], (recs.getLast h).end_timestamp_ms =
        pyRound ((v.totalFrames : ℚ) / v.fps * 1000)) := by
  have h2 : ¬ v.fps ≤ 0 := not_le.mpr hfps
  have h3 : ¬ v.totalFrames ≤ 0 := not_le.mpr hT
  set s := sampleStride v.fps cfg.sample_interval_seconds with hsdef
  set T := v.totalFrames.toNat with hTdef
  have hTpos : 0 < T := by
    rw [hTdef]
    omega
  have hmax : max 1 s = s := max_one_sampleStride _ _
  have hgen : extractFramesStreamingGenerator cfg v =
      .ok ((rangeStep T s 0).map (mkFrameData v.fps T s), v.fps, v.totalFrames) := by
    unfold extractFramesStreamingGenerator
    simp [hop, h2, h3, ← hsdef, ← hTdef]
  have hgetp : ∀ (i : ℕ) (h : i < (rangeStep T s 0).length),
      (rangeStep T s 0)[i] = i * s := by
    intro i h
    have := @rangeStep_get T s 0 i h
    rw [List.get_eq_getElem] at this
    rw [this, hmax]
    omega
  have hget : ∀ (i : ℕ) (h : i < ((rangeStep T s 0).map (mkFrameData v.fps T s)).length),
      (((rangeStep T s 0).map (mkFrameData v.fps T s)).get ⟨i, h⟩).frame_idx = i * s := by
    intro i h
    have hlen : i < (rangeStep T s 0).length := by simpa using h
    rw [List.get_eq_getElem, List.getElem_map, hgetp i hlen]
    rfl
  have hmem : ∀ r ∈ (rangeStep T s 0).map (mkFrameData v.fps T s),
      r.timestamp_ms = pyRound ((r.frame_idx : ℚ) / v.fps * 1000) ∧
      r.end_timestamp_ms = pyRound (((min (r.frame_idx + s) T : ℕ) : ℚ) / v.fps * 1000) := by
    intro r hr
    obtain ⟨pos, -, rfl⟩ := List.mem_map.mp hr
    exact ⟨rfl, rfl⟩
  refine ⟨(rangeStep T s 0).map (mkFrameData v.fps T s), hgen, hget, hmem, ?_, ?_⟩
  · rw [List.chain'_iff_get]
    intro i hi
    simp only [List.length_map] at hi
    have hp1 : i < (rangeStep T s 0).length := by omega
    have hp2 : i + 1 < (rangeStep T s 0).length := by omega
    have hmem2 : (rangeStep T s 0)[i + 1] ∈ rangeStep T s 0 := List.getElem_mem hp2
    have hlt : (i + 1) * s < T := by
      have hm := (rangeStep_mem hmem2).2
      rw [hgetp (i + 1) hp2] at hm
      omega
    have hrec1 : ((rangeStep T s 0).map (mkFrameData v.fps T s)).get
        ⟨i, by simpa using hp1⟩ = mkFrameData v.fps T s (i * s) := by
      rw [List.get_eq_getElem, List.getElem_map, hgetp i hp1]
    have hrec2 : ((rangeStep T s 0).map (mkFrameData v.fps T s)).get
        ⟨i + 1, by simpa using hp2⟩ = mkFrameData v.fps T s ((i + 1) * s) := by
      rw [List.get_eq_getElem, List.getElem_map, hgetp (i + 1) hp2]
    rw [hrec1, hrec2]
    show pyRound (((min (i * s + s) T : ℕ) : ℚ) / v.fps * 1000) =
      pyRound ((((i + 1) * s : ℕ) : ℚ) / v.fps * 1000)
    have harg : min (i * s + s) T = (i + 1) * s := by
      have : i * s + s = (i + 1) * s := by ring
      omega
    rw [harg]
  · intro hne
    have hne' : rangeStep T s 0 ≠ [] := by
      intro hc
      rw [hc] at hne
      exact hne rfl
    have hlast := @rangeStep_getLast T s 0
      (by
        by_contra hc
        exact hne' (rangeStep_nil hc)) hne'
    have hlastmap : ((rangeStep T s 0).map (mkFrameData v.fps T s)).getLast hne =
        mkFrameData v.fps T s ((rangeStep T s 0).getLast hne') :=
      List.getLast_map _ _ hne
    rw [hlastmap]
    show pyRound (((min ((rangeStep T s 0).getLast hne' + s) T : ℕ) : ℚ) / v.fps * 1000) = _
    have harg : min ((rangeStep T s 0).getLast hne' + s) T = T := by
      rw [hmax] at hlast
      omega
    rw [harg]
    have hcast : ((T : ℕ) : ℚ) = (v.totalFrames : ℚ) := by
      rw [hTdef]
      exact_mod_cast congrArg (fun z : ℤ => (z : ℚ))
        (Int.toNat_of_nonneg (le_of_lt hT))
    rw [hcast]

theorem claim4_witness :
    ∃ recs, extractFramesStreamingGenerator { sample_interval_seconds := 5/2 }
        ⟨"w4.mp4", true, true, 3, 16⟩ = .ok (recs, 3, 16) ∧
      (∀ (i : ℕ) (h : i < recs.length),
        (recs.get ⟨i, h⟩).frame_idx = i * sampleStride 3 (5/2)) ∧
      (∀ r ∈ recs,
        r.timestamp_ms = pyRound ((r.frame_idx : ℚ) / 3 * 1000) ∧
        r.end_timestamp_ms = pyRound
          (((min (r.frame_idx + sampleStride 3 (5/2)) 16 : ℕ) : ℚ) / 3 * 1000)) ∧
      List.Chain' (fun a b => a.end_timestamp_ms = b.timestamp_ms) recs ∧
      (∀ h : recs ≠ [], (recs.getLast h).end_timestamp_ms =
        pyRound ((16 : ℚ) / 3 * 1000)) :=
  claim4_amended_sampling { sample_interval_seconds := 5/2 } ⟨"w4.mp4", true, true, 3, 16⟩
    rfl (by norm_num) (by norm_num)

/-- Confident detections decide as confident (0.4 < 0.9). -/
theorem decide_conf_high : decide (OBJECT_CONFIDENCE_THRESHOLD < (9/10 : ℚ)) = true :=
  decide_eq_true (by norm_num [OBJECT_CONFIDENCE_THRESHOLD])

/-- Frame history falsifying C8's running rule: 10 frames, 6 with a confident
person, 1 with a confident bicycle, 3 empty. -/
def runningCxFrames : List (List DetObj) :=
  [[⟨"person", 9/10⟩], [⟨"person", 9/10⟩], [⟨"person", 9/10⟩], [⟨"person", 9/10⟩],
   [⟨"person", 9/10⟩], [⟨"person", 9/10⟩], [⟨"bicycle", 9/10⟩], [], [], []]

theorem runningCxFrames_counts :
    countLabel runningCxFrames "person" = 6 ∧
    countLabel runningCxFrames "bicycle" = 1 ∧
    countLabel runningCxFrames "motorcycle" = 0 ∧
    countLabel runningCxFrames "car" = 0 ∧
    countLabel runningCxFrames "truck" = 0 ∧
    countLabel runningCxFrames "bus" = 0 ∧
    countLabel runningCxFrames "boat" = 0 ∧
    countLabel runningCxFrames "surfboard" = 0 ∧
    countLabel runningCxFrames "umbrella" = 0 := by
  refine ⟨?_, ?_, ?_, ?_, ?_, ?_, ?_, ?_, ?_⟩ <;>
    simp [countLabel, runningCxFrames, List.filter, decide_conf_high]

/-- C8 counterexample: on this history the fraction of frames with a
confident person detection is 0.6 > 0.5 and the aggregated vehicle density is
0.1 < 0.2, yet the classifier emits NO activity at all — in particular no
'running' — because the bicycle ratio 0.1 fails the rule's additional
`bicycle_ratio < 0.1` condition, which the claim omits. -/
theorem claim8_counterexample :
    analyzeActivitiesCore runningCxFrames ⟨"forest"⟩ = [] ∧
    (1/2 : ℚ) < (countLabel runningCxFrames "person" : ℚ) / (runningCxFrames.length : ℚ) ∧
    ((countLabel runningCxFrames "car" + countLabel runningCxFrames "bicycle" +
        countLabel runningCxFrames "motorcycle" : ℕ) : ℚ) / (runningCxFrames.length : ℚ)
      < (1/5 : ℚ) ∧
    ¬ (∃ a ∈ analyzeActivitiesCore runningCxFrames ⟨"forest"⟩, a.activity = "running") := by
  obtain ⟨hp, hb, hm, hc, ht, hbus, hboat, hsurf, humb⟩ := runningCxFrames_counts
  have hlen : runningCxFrames.length = 10 := by simp [runningCxFrames]
  have hmain : analyzeActivitiesCore runningCxFrames ⟨"forest"⟩ = [] := by
    unfold analyzeActivitiesCore
    rw [if_neg (by simp [runningCxFrames])]
    unfold detectSwimming detectBiking detectMotorcycling detectRunning detectDriving
    simp only [hp, hb, hm, hc, ht, hbus, hboat, hsurf, humb, hlen]
    norm_num
    simp
    norm_num [sortDesc]
  refine ⟨hmain, ?_, ?_, ?_⟩
  · rw [hp, hlen]
    norm_num
  · rw [hc, hb, hm, hlen]
    norm_num
  · rw [hmain]
    rintro ⟨a, ha, -⟩
    exact absurd ha (by simp)

/-- C8 (amended): the activity classifier returns a list sorted by confidence
in descending order; a 'running' activity with confidence
`min(person_ratio * 0.7, 1.0)` is emitted for every non-empty frame history
in which `person_ratio > 0.5`, `bicycle_ratio < 0.1`, `motorcycle_ratio <
0.1` AND the aggregated vehicle density is below 0.2, where each ratio is the
count of confident (> 0.4) detections of that label divided by the number of
frames. -/
theorem claim8_amended_activity_ranking (frames : List (List DetObj))
    (scene : SceneContext) (hne : frames ≠ []) :
    List.Pairwise confGE (analyzeActivitiesCore frames scene) ∧
    ((1/2 : ℚ) < (countLabel frames "person" : ℚ) / (frames.length : ℚ) →
     (countLabel frames "bicycle" : ℚ) / (frames.length : ℚ) < (1/10 : ℚ) →
     (countLabel frames "motorcycle" : ℚ) / (frames.length : ℚ) < (1/10 : ℚ) →
     ((countLabel frames "car" + countLabel frames "bicycle" +
         countLabel frames "motorcycle" : ℕ) : ℚ) / (frames.length : ℚ) < (1/5 : ℚ) →
     Activity.mk "running"
       (min ((countLabel frames "person" : ℚ) / (frames.length : ℚ) * 0.7) 1) ["person"]
       ∈ analyzeActivitiesCore frames scene) := by
  have hie : ¬ frames.isEmpty = true := by
    cases frames with
    | nil => exact absurd rfl hne
    | cons a l => simp
  constructor
  · unfold analyzeActivitiesCore
    rw [if_neg hie]
    exact sortDesc_sorted _
  · intro h1 h2 h3 h4
    unfold analyzeActivitiesCore
    rw [if_neg hie]
    rw [mem_sortDesc]
    have h1' : (0.5 : ℚ) < (countLabel frames "person" : ℚ) / (frames.length : ℚ) := by
      calc (0.5 : ℚ) = 1/2 := by norm_num
        _ < _ := h1
    have h2' : (countLabel frames "bicycle" : ℚ) / (frames.length : ℚ) < (0.1 : ℚ) := by
      calc (countLabel frames "bicycle" : ℚ) / (frames.length : ℚ) < 1/10 := h2
        _ = (0.1 : ℚ) := by norm_num
    have h3' : (countLabel frames "motorcycle" : ℚ) / (frames.length : ℚ) < (0.1 : ℚ) := by
      calc (countLabel frames "motorcycle" : ℚ) / (frames.length : ℚ) < 1/10 := h3
        _ = (0.1 : ℚ) := by norm_num
    have h4' : ((countLabel frames "car" + countLabel frames "bicycle" +
        countLabel frames "motorcycle" : ℕ) : ℚ) / (frames.length : ℚ) < (0.2 : ℚ) := by
      calc ((countLabel frames "car" + countLabel frames "bicycle" +
          countLabel frames "motorcycle" : ℕ) : ℚ) / (frames.length : ℚ) < 1/5 := h4
        _ = (0.2 : ℚ) := by norm_num
    have hr : detectRunning ((countLabel frames "person" : ℚ) / (frames.length : ℚ))
        ((countLabel frames "bicycle" : ℚ) / (frames.length : ℚ))
        ((countLabel frames "motorcycle" : ℚ) / (frames.length : ℚ))
        (countLabel frames) (frames.length : ℚ) =
        some ⟨"running",
          (min ((countLabel frames "person" : ℚ) / (frames.length : ℚ) * 0.7) 1), ["person"]⟩ := by
      unfold detectRunning
      rw [if_pos ⟨h1', h2', h3'⟩, if_pos h4']
    simp [hr]

theorem claim8_witness :
    List.Pairwise confGE
      (analyzeActivitiesCore [[⟨"person", 9/10⟩], [⟨"person", 9/10⟩]] ⟨"forest"⟩) ∧
    Activity.mk "running"
      (min ((countLabel [[⟨"person", 9/10⟩], [⟨"person", 9/10⟩]] "person" : ℚ) /
        (([[⟨"person", 9/10⟩], [⟨"person", 9/10⟩]] : List (List DetObj)).length : ℚ) * 0.7) 1)
      ["person"]
      ∈ analyzeActivitiesCore [[⟨"person", 9/10⟩], [⟨"person", 9/10⟩]] ⟨"forest"⟩ := by
  have hp : countLabel [[⟨"person", 9/10⟩], [⟨"person", 9/10⟩]] "person" = 2 := by
    simp [countLabel, List.filter, decide_conf_high]
  have hb : countLabel [[⟨"person", 9/10⟩], [⟨"person", 9/10⟩]] "bicycle" = 0 := by
    simp [countLabel, List.filter, decide_conf_high]
  have hm : countLabel [[⟨"person", 9/10⟩], [⟨"person", 9/10⟩]] "motorcycle" = 0 := by
    simp [countLabel, List.filter, decide_conf_high]
  have hc : countLabel [[⟨"person", 9/10⟩], [⟨"person", 9/10⟩]] "car" = 0 := by
    simp [countLabel, List.filter, decide_conf_high]
  have h := claim8_amended_activity_ranking [[⟨"person", 9/10⟩], [⟨"person", 9/10⟩]]
    ⟨"forest"⟩ (by simp)
  refine ⟨h.1, ?_⟩
  refine h.2 ?_ ?_ ?_ ?_
  · rw [hp]
    norm_num
  · rw [hb]
    norm_num
  · rw [hm]
    norm_num
  · rw [hc, hb, hm]
    norm_num

theorem analyzeActivitiesCore_sorted (fo : List (List DetObj)) (ctx : SceneContext) :
    List.Pairwise confGE (analyzeActivitiesCore fo ctx) := by
  unfold analyzeActivitiesCore
  split
  · exact List.Pairwise.nil
  · exact sortDesc_sorted _

theorem runPostProcessing_sorted (ps : List PluginModel) (frames : List Dict)
    (h : ∀ p ∈ ps, p.analyzeActivities = none ∨
      ∃ ctx, p.analyzeActivities = some (activityCapability ctx)) :
    List.Pairwise confGE (runPostProcessing ps frames) := by
  unfold runPostProcessing
  have main : ∀ (qs : List PluginModel) (acc : List Activity),
      (∀ p ∈ qs, p.analyzeActivities = none ∨
        ∃ ctx, p.analyzeActivities = some (activityCapability ctx)) →
      List.Pairwise confGE acc →
      List.Pairwise confGE (qs.foldl (fun acc p =>
        match p.analyzeActivities with
        | none => acc
        | some f =>
          match f frames with
          | .error _ => acc
          | .ok acts => if acts.isEmpty then acc else acts) acc) := by
    intro qs
    induction qs with
    | nil => intro acc _ hacc; exact hacc
    | cons p qs ih =>
      intro acc hq hacc
      rw [List.foldl_cons]
      refine ih _ (fun q hqq => hq q (by simp [hqq])) ?_
      rcases hq p (by simp) with hnone | ⟨ctx, hcap⟩
      · rw [hnone]
        exact hacc
      · rw [hcap]
        cases hcall : activityCapability ctx frames with
        | error e =>
          simp only [hcall]
          exact hacc
        | ok acts =>
          simp only [hcall]
          by_cases hne2 : acts.isEmpty = true
          · rw [if_pos hne2]
            exact hacc
          · rw [if_neg hne2]
            unfold activityCapability at hcall
            cases hfo : framesObjects frames with
            | error e =>
              rw [hfo] at hcall
              exact absurd hcall (by simp [Except.map])
            | ok fo =>
              rw [hfo] at hcall
              have hacts : analyzeActivitiesCore fo ctx = acts := by
                simpa [Except.map] using hcall
              rw [← hacts]
              exact analyzeActivitiesCore_sorted fo ctx
  exact main ps [] h List.Pairwise.nil

/-- C10: on every successful run, the summary reports
`primary_activity = "unknown"` and `confidence = 0.0` when the
detected-activities list is empty, and otherwise the activity and confidence
of its first entry; when the run's activity capability is the ActivityPlugin's
`analyze_activities`, that first entry has maximal confidence. -/
theorem claim10_summary_primary_activity (cfg : AnalysisConfig) (ps : List PluginModel)
    (v : Video) (frames : List Dict) (st : AnalyzerState) (tr : List ProgressCall)
    (hok : analyzeStreamingOptimized cfg ps v = .ok (frames, st, tr))
    (hex : v.fileExists = true) :
    ((analyze cfg ps v).1.detected_activities = [] →
      (analyze cfg ps v).1.summary.primary_activity = some "unknown" ∧
      (analyze cfg ps v).1.summary.confidence = some 0) ∧
    (∀ a rest, (analyze cfg ps v).1.detected_activities = a :: rest →
      (analyze cfg ps v).1.summary.primary_activity = some a.activity ∧
      (analyze cfg ps v).1.summary.confidence = some a.confidence) ∧
    ((∀ p ∈ ps, p.analyzeActivities = none ∨
        ∃ ctx, p.analyzeActivities = some (activityCapability ctx)) →
      ∀ a rest, (analyze cfg ps v).1.detected_activities = a :: rest →
      ∀ b ∈ rest, b.confidence ≤ a.confidence) := by
  have hd : (analyze cfg ps v).1.detected_activities = runPostProcessing ps frames := by
    simp [analyze, hex, hok]
  have hpa : (analyze cfg ps v).1.summary.primary_activity =
      some (match runPostProcessing ps frames with
        | [] => "unknown"
        | a :: _ => a.activity) := by
    simp [analyze, hex, hok]
  have hcf : (analyze cfg ps v).1.summary.confidence =
      some (match runPostProcessing ps frames with
        | [] => (0 : ℚ)
        | a :: _ => a.confidence) := by
    simp [analyze, hex, hok]
  refine ⟨?_, ?_, ?_⟩
  · intro he
    rw [hd] at he
    rw [hpa, hcf, he]
    exact ⟨rfl, rfl⟩
  · intro a rest he
    rw [hd] at he
    rw [hpa, hcf, he]
    exact ⟨rfl, rfl⟩
  · intro hcap a rest he
    have hsorted := runPostProcessing_sorted ps frames hcap
    rw [hd] at he
    rw [he] at hsorted
    intro b hb
    exact (List.pairwise_cons.mp hsorted).1 b hb

theorem claim10_witness :
    (analyze {} [] ⟨"w10.mp4", true, true, 1, 3⟩).1.summary.primary_activity =
        some "unknown" ∧
      (analyze {} [] ⟨"w10.mp4", true, true, 1, 3⟩).1.summary.confidence = some 0 := by
  have hok := analyzeStreamingOptimized_ok {} [] ⟨"w10.mp4", true, true, 1, 3⟩ rfl
    (by norm_num) (by norm_num)
    (by show ¬ pyTrunc ((1 : ℚ) * (5/2)) = 0; norm_num [pyTrunc])
  have h := claim10_summary_primary_activity {} [] ⟨"w10.mp4", true, true, 1, 3⟩ _ _ _ hok rfl
  refine h.1 ?_
  simp [analyze, hok, runPostProcessing]

/-! ## Registration-order refinement of the micro-batch -/

def mapIdxFrom {α β : Type} (f : ℕ → α → β) : ℕ → List α → List β
  | _, [] => []
  | j, a :: l => f j a :: mapIdxFrom f (j + 1) l

theorem mapIdxFrom_shift {α β : Type} (f : ℕ → α → β) :
    ∀ (l : List α) (n : ℕ),
      mapIdxFrom f (n + 1) l = mapIdxFrom (fun j a => f (j + 1) a) n l := by
  intro l
  induction l with
  | nil => intro n; rfl
  | cons a l ih =>
    intro n
    simp [mapIdxFrom, ih]

theorem mapIdxFrom_congr {α β : Type} (f g : ℕ → α → β) (h : ∀ j a, f j a = g j a) :
    ∀ (n : ℕ) (l : List α), mapIdxFrom f n l = mapIdxFrom g n l := by
  intro n l
  induction l generalizing n with
  | nil => rfl
  | cons a l ih =>
    simp [mapIdxFrom, h, ih]

theorem mapIdxFrom_length {α β : Type} (f : ℕ → α → β) :
    ∀ (n : ℕ) (l : List α), (mapIdxFrom f n l).length = l.length := by
  intro n l
  induction l generalizing n with
  | nil => rfl
  | cons a l ih =>
    simp [mapIdxFrom, ih]

theorem mapIdxFrom_getElem {α β : Type} (f : ℕ → α → β) :
    ∀ (l : List α) (n i : ℕ) (h : i < l.length)
      (h2 : i < (mapIdxFrom f n l).length),
      (mapIdxFrom f n l)[i] = f (n + i) (l[i]) := by
  intro l
  induction l with
  | nil =>
    intro n i h h2
    simp at h
  | cons a l ih =>
    intro n i h h2
    match i with
    | 0 => rfl
    | i + 1 =>
      have hl : i < l.length := by simpa using h
      have hl2 : i < (mapIdxFrom f (n + 1) l).length := by
        rw [mapIdxFrom_length]
        exact hl
      show (mapIdxFrom f (n + 1) l)[i] = _
      rw [ih (n + 1) i hl hl2]
      congr 1
      omega

/-- The skip decision of `_should_run_plugin` for the `i`-th call made for a
plugin within a batch, phrased against the counter values at batch entry
(the counter is incremented once per call, so the `i`-th call sees
`counter + i + 1`). -/
def shouldRunAt (cfg : AnalysisConfig) (counters : List (String × ℕ)) (name : String)
    (i : ℕ) : Bool :=
  if name ∈ criticalPlugins then true
  else
    match cfg.plugin_skip_interval with
    | none => true
    | some m =>
      ((alistGet counters name).getD 0 + i + 1) % ((alistGet m name).getD 1) == 0

/-- One plugin's merge step on one frame record, as performed by
`_process_micro_batch` around `_safe_plugin_call`. -/
def mergeCall (p : PluginModel) (buf : Option ℕ) (r : Dict) : Dict :=
  match p.analyzeFrame buf r with
  | .ok res _ => if res.isEmpty then r else dupdate r res
  | .exn _ => if r.isEmpty then r else dupdate r r

/-- Reference description following the spec's words: a frame's record is the
base record with the plugins applied in registration order (each plugin
merging its delta before the next plugin runs). -/
def frameSeqResult (cfg : AnalysisConfig) (counters : List (String × ℕ))
    (ps : List PluginModel) (i : ℕ) (fd : FrameData) : Dict :=
  ps.foldl
    (fun r p => if shouldRunAt cfg counters p.name i then mergeCall p fd.frame r else r)
    (initFrameResult fd)

theorem shouldRunPlugin_fst (cfg : AnalysisConfig) (st : AnalyzerState) (name : String)
    (idx : ℕ) :
    (shouldRunPlugin cfg st name idx).1 = shouldRunAt cfg st.plugin_frame_counters name 0 := by
  unfold shouldRunPlugin shouldRunAt
  by_cases hc : name ∈ criticalPlugins
  · rw [if_pos hc, if_pos hc]
  · rw [if_neg hc, if_neg hc]
    cases cfg.plugin_skip_interval with
    | none => rfl
    | some m => rfl

theorem shouldRunAt_step (cfg : AnalysisConfig) (st : AnalyzerState) (name : String)
    (idx j : ℕ) :
    shouldRunAt cfg (shouldRunPlugin cfg st name idx).2.plugin_frame_counters name j =
      shouldRunAt cfg st.plugin_frame_counters name (j + 1) := by
  unfold shouldRunPlugin shouldRunAt
  by_cases hc : name ∈ criticalPlugins
  · rw [if_pos hc]
    simp [hc]
  · rw [if_neg hc]
    cases hm : cfg.plugin_skip_interval with
    | none => simp [hc, hm]
    | some m =>
      simp only [hc, hm, if_false]
      rw [alistGet_alistSet]
      simp only [eq_self_iff_true, ite_true, Option.getD_some]
      have heq : (alistGet st.plugin_frame_counters name).getD 0 + 1 + j + 1 =
          (alistGet st.plugin_frame_counters name).getD 0 + (j + 1) + 1 := by omega
      rw [heq]

theorem shouldRunPlugin_counters_other (cfg : AnalysisConfig) (st : AnalyzerState)
    (name : String) (idx : ℕ) (q : String) (h : ¬ q = name) :
    alistGet (shouldRunPlugin cfg st name idx).2.plugin_frame_counters q =
      alistGet st.plugin_frame_counters q := by
  unfold shouldRunPlugin
  by_cases hc : name ∈ criticalPlugins
  · rw [if_pos hc]
  · rw [if_neg hc]
    cases hm : cfg.plugin_skip_interval with
    | none => rfl
    | some m =>
      simp only []
      rw [alistGet_alistSet]
      rw [if_neg h]

theorem shouldRunAt_congr (cfg : AnalysisConfig) (c1 c2 : List (String × ℕ))
    (name : String) (i : ℕ) (h : alistGet c1 name = alistGet c2 name) :
    shouldRunAt cfg c1 name i = shouldRunAt cfg c2 name i := by
  unfold shouldRunAt
  rw [h]

/-- The inner loop of `_process_micro_batch` for one plugin, as the indexed
map of its per-frame merge steps: the decision for the `i`-th frame uses the
plugin's counter-at-batch-entry plus `i`. -/
theorem pluginOverBatch_fst_eq (cfg : AnalysisConfig) (p : PluginModel) :
    ∀ (pairs : List (FrameData × Dict)) (st : AnalyzerState),
      (pluginOverBatch cfg p pairs st).1 =
        mapIdxFrom (fun j pr =>
          if shouldRunAt cfg st.plugin_frame_counters p.name j
          then mergeCall p pr.1.frame pr.2 else pr.2) 0 pairs := by
  intro pairs
  induction pairs with
  | nil => intro st; rfl
  | cons pr rest ih =>
    intro st
    obtain ⟨fd, r⟩ := pr
    rw [pluginOverBatch_cons]
    have hb1 := shouldRunPlugin_fst cfg st p.name fd.frame_idx
    by_cases hrun : (shouldRunPlugin cfg st p.name fd.frame_idx).1
    · rw [if_pos hrun]
      have hhead : (if (safePluginCall (shouldRunPlugin cfg st p.name fd.frame_idx).2
            p fd.frame r).1.isEmpty then r
          else dupdate r
            ((safePluginCall (shouldRunPlugin cfg st p.name fd.frame_idx).2
              p fd.frame r).1)) = mergeCall p fd.frame r := by
        cases hcall : p.analyzeFrame fd.frame r with
        | ok res dur =>
          rw [safePluginCall_fst_ok _ _ _ _ _ _ hcall]
          unfold mergeCall
          rw [hcall]
        | exn dur =>
          rw [safePluginCall_fst_exn _ _ _ _ _ hcall]
          unfold mergeCall
          rw [hcall]
      have htail :
          (pluginOverBatch cfg p rest
            ((safePluginCall (shouldRunPlugin cfg st p.name fd.frame_idx).2
              p fd.frame r).2)).1 =
          mapIdxFrom (fun j pr =>
            if shouldRunAt cfg st.plugin_frame_counters p.name (j + 1)
            then mergeCall p pr.1.frame pr.2 else pr.2) 0 rest := by
        rw [ih]
        refine mapIdxFrom_congr _ _ ?_ 0 rest
        intro j pr
        rw [safePluginCall_counters, shouldRunAt_step]
      show _ :: _ = mapIdxFrom _ 0 ((fd, r) :: rest)
      rw [mapIdxFrom, mapIdxFrom_shift]
      have hrun0 : shouldRunAt cfg st.plugin_frame_counters p.name 0 = true := by
        rw [← hb1]
        exact hrun
      rw [hrun0]
      simp only [if_true]
      rw [hhead, htail]
    · rw [if_neg hrun]
      have htail : (pluginOverBatch cfg p rest
            (shouldRunPlugin cfg st p.name fd.frame_idx).2).1 =
          mapIdxFrom (fun j pr =>
            if shouldRunAt cfg st.plugin_frame_counters p.name (j + 1)
            then mergeCall p pr.1.frame pr.2 else pr.2) 0 rest := by
        rw [ih]
        refine mapIdxFrom_congr _ _ ?_ 0 rest
        intro j pr
        rw [shouldRunAt_step]
      show _ :: _ = mapIdxFrom _ 0 ((fd, r) :: rest)
      rw [mapIdxFrom, mapIdxFrom_shift]
      have hrun0 : shouldRunAt cfg st.plugin_frame_counters p.name 0 = false := by
        rw [← hb1]
        simpa using hrun
      rw [hrun0]
      simp only [if_false, Bool.false_eq_true]
      rw [htail]

theorem pluginOverBatch_counters_other (cfg : AnalysisConfig) (p : PluginModel) :
    ∀ (pairs : List (FrameData × Dict)) (st : AnalyzerState) (q : String),
      ¬ q = p.name →
      alistGet (pluginOverBatch cfg p pairs st).2.plugin_frame_counters q =
        alistGet st.plugin_frame_counters q := by
  intro pairs
  induction pairs with
  | nil => intro st q _; rfl
  | cons pr rest ih =>
    intro st q hq
    obtain ⟨fd, r⟩ := pr
    rw [pluginOverBatch_cons]
    by_cases hrun : (shouldRunPlugin cfg st p.name fd.frame_idx).1
    · rw [if_pos hrun]
      show alistGet (pluginOverBatch cfg p rest _).2.plugin_frame_counters q = _
      rw [ih _ q hq, safePluginCall_counters, shouldRunPlugin_counters_other _ _ _ _ _ hq]
    · rw [if_neg hrun]
      show alistGet (pluginOverBatch cfg p rest _).2.plugin_frame_counters q = _
      rw [ih _ q hq, shouldRunPlugin_counters_other _ _ _ _ _ hq]

theorem frameSeq_foldl_congr (cfg : AnalysisConfig) (buf : Option ℕ) (i : ℕ) :
    ∀ (ps : List PluginModel) (c1 c2 : List (String × ℕ)),
      (∀ p ∈ ps, alistGet c1 p.name = alistGet c2 p.name) →
      ∀ r : Dict,
        ps.foldl (fun r p => if shouldRunAt cfg c1 p.name i then mergeCall p buf r else r) r =
        ps.foldl (fun r p => if shouldRunAt cfg c2 p.name i then mergeCall p buf r else r) r := by
  intro ps
  induction ps with
  | nil => intro c1 c2 _ r; rfl
  | cons p ps ih =>
    intro c1 c2 h r
    rw [List.foldl_cons, List.foldl_cons]
    rw [shouldRunAt_congr cfg c1 c2 p.name i (h p (by simp))]
    exact ih c1 c2 (fun q hq => h q (by simp [hq])) _

theorem microFold_getElem (cfg : AnalysisConfig) :
    ∀ (ps : List PluginModel) (batch : List FrameData) (results : List Dict)
      (st : AnalyzerState),
      (ps.map (fun p => p.name)).Nodup → results.length = batch.length →
      ∀ (i : ℕ) (hi : i < batch.length) (hi3 : i < results.length)
        (hi2 : i < (ps.foldl (fun acc p => pluginOverBatch cfg p (batch.zip acc.1) acc.2)
          (results, st)).1.length),
        (ps.foldl (fun acc p => pluginOverBatch cfg p (batch.zip acc.1) acc.2)
          (results, st)).1[i] =
          ps.foldl (fun r p => if shouldRunAt cfg st.plugin_frame_counters p.name i
            then mergeCall p (batch[i]).frame r else r) (results[i]) := by
  intro ps
  induction ps with
  | nil =>
    intro batch results st _ hlen i hi hi3 hi2
    rfl
  | cons p ps ih =>
    intro batch results st hnd hlen i hi hi3 hi2
    have hndm : (p.name :: ps.map (fun p => p.name)).Nodup := by simpa using hnd
    have hhead_nm : p.name ∉ ps.map (fun p => p.name) := (List.nodup_cons.mp hndm).1
    have hnd' : (ps.map (fun p => p.name)).Nodup := (List.nodup_cons.mp hndm).2
    have hplen : (batch.zip results).length = batch.length := by
      rw [List.length_zip, hlen]
      omega
    have hres1len : (pluginOverBatch cfg p (batch.zip results) st).1.length = batch.length := by
      rw [pluginOverBatch_length]
      exact hplen
    have hip : i < (batch.zip results).length := by omega
    have hires1 : i < (pluginOverBatch cfg p (batch.zip results) st).1.length := by omega
    have hresi : (pluginOverBatch cfg p (batch.zip results) st).1[i] =
        (if shouldRunAt cfg st.plugin_frame_counters p.name i
         then mergeCall p (batch[i]).frame (results[i]) else results[i]) := by
      rw [List.getElem_of_eq (pluginOverBatch_fst_eq cfg p (batch.zip results) st) hires1]
      rw [mapIdxFrom_getElem _ _ 0 i hip (by rw [mapIdxFrom_length]; exact hip)]
      rw [List.getElem_zip]
      simp
    have hcnt : ∀ q ∈ ps,
        alistGet (pluginOverBatch cfg p (batch.zip results) st).2.plugin_frame_counters q.name =
          alistGet st.plugin_frame_counters q.name := by
      intro q hq
      refine pluginOverBatch_counters_other cfg p _ st q.name ?_
      intro hc
      exact hhead_nm (hc ▸ List.mem_map_of_mem (fun p => p.name) hq)
    have hi2' : i < (ps.foldl (fun acc p => pluginOverBatch cfg p (batch.zip acc.1) acc.2)
        ((pluginOverBatch cfg p (batch.zip results) st).1,
          (pluginOverBatch cfg p (batch.zip results) st).2)).1.length := by
      rw [processMicroBatch_foldl_length cfg ps batch _ _ hres1len]
      exact hi
    refine Eq.trans (ih batch (pluginOverBatch cfg p (batch.zip results) st).1
      (pluginOverBatch cfg p (batch.zip results) st).2 hnd' hres1len i hi hires1 hi2') ?_
    rw [hresi, List.foldl_cons]
    exact frameSeq_foldl_congr cfg (batch[i]).frame i ps _ _ hcnt _

/-- `_process_micro_batch` refines the registration-order description: the
`i`-th frame's record equals the base record with the plugins applied in
registration order, the skip decision for a plugin on the `i`-th frame using
its counter-at-batch-entry plus `i` (counters are per-plugin and independent
of the frame index). -/
theorem processMicroBatch_registration_order (cfg : AnalysisConfig)
    (ps : List PluginModel) (batch : List FrameData) (st : AnalyzerState)
    (hnd : (ps.map (fun p => p.name)).Nodup) (i : ℕ) (hi : i < batch.length)
    (hi2 : i < (processMicroBatch cfg ps batch st).1.length) :
    (processMicroBatch cfg ps batch st).1[i] =
      frameSeqResult cfg st.plugin_frame_counters ps i (batch[i]) := by
  unfold processMicroBatch frameSeqResult
  have hlen : (batch.map initFrameResult).length = batch.length := by simp
  have hi3 : i < (batch.map initFrameResult).length := by omega
  rw [microFold_getElem cfg ps batch (batch.map initFrameResult) st hnd hlen i hi hi3 hi2]
  congr 1
  rw [List.getElem_map]

/-- The base per-frame record binds only the four scheduler keys. -/
theorem initFrameResult_dget_not_reserved (fd : FrameData) (k : String)
    (hk : k ∉ reservedKeys) :
    dget (initFrameResult fd) k = none := by
  simp only [reservedKeys, List.mem_cons, List.not_mem_nil, or_false, not_or] at hk
  obtain ⟨h1, h2, h3, h4, _⟩ := hk
  simp [initFrameResult, dget, h1, h2, h3, h4]

/-- If every plugin of the chain either cannot emit key `k` or is skipped on
frame `i`, the registration-order fold leaves `k` unbound. -/
theorem seqFold_dget_none (cfg : AnalysisConfig) (counters : List (String × ℕ)) (i : ℕ)
    (buf : Option ℕ) (k : String) :
    ∀ (ps : List PluginModel) (r : Dict), dget r k = none →
      (∀ q ∈ ps, NeverEmits q k ∨ shouldRunAt cfg counters q.name i = false) →
      dget (ps.foldl (fun r q => if shouldRunAt cfg counters q.name i
        then mergeCall q buf r else r) r) k = none := by
  intro ps
  induction ps with
  | nil => intro r hr _; exact hr
  | cons p ps ih =>
    intro r hr hall
    rw [List.foldl_cons]
    refine ih _ ?_ (fun q hq => hall q (List.mem_cons_of_mem _ hq))
    rcases hall p (List.mem_cons_self _ _) with hne | hskip
    · by_cases hrun : shouldRunAt cfg counters p.name i
      · rw [if_pos hrun]
        unfold mergeCall
        cases hcall : p.analyzeFrame buf r with
        | ok res dur =>
          rw [dget_merge_step r res k (Or.inl (hne buf r res dur hcall))]
          exact hr
        | exn dur =>
          rw [dget_merge_step r r k (Or.inr rfl)]
          exact hr
      · rw [if_neg hrun]
        exact hr
    · simp only [hskip, Bool.false_eq_true, if_false]
      exact hr

/-- Witness fixture: a configuration whose only skip entry makes `SkipPlugin`
run every second call. -/
def cfg6w : AnalysisConfig :=
  { plugin_skip_interval := some [("SkipPlugin", 2)] }

/-- Witness fixture: a plugin that always annotates key `skipkey`. -/
def skipPlug : PluginModel :=
  { name := "SkipPlugin"
    analyzeFrame := fun _ _ => .ok [("skipkey", .str "s")] 1 }

/-- Witness fixture: one sampled frame. -/
def fd6w : FrameData :=
  { frame := some 0, timestamp_ms := 0, end_timestamp_ms := 100,
    frame_idx := 0, scale_factor := 1 }

/-- C6: the skip policy of `_should_run_plugin`: (a) the object-detection and
face-recognition plugins run on every sampled frame with no counter update,
regardless of any configured skip interval; (b) the decision ignores the frame
index entirely; (c) any other plugin with configured skip interval `N`
(positive — Python raises `ZeroDivisionError` at `N = 0`) has its plugin-local
counter incremented once per call and runs exactly when the incremented
counter is divisible by `N`; (d) a frame on which every plugin able to emit a
key `k` is skipped simply lacks `k` in its record. -/
theorem claim6_skip_policy (cfg : AnalysisConfig) (st : AnalyzerState) :
    (∀ nm, nm ∈ criticalPlugins → ∀ idx, shouldRunPlugin cfg st nm idx = (true, st)) ∧
    (∀ nm idx idx2, shouldRunPlugin cfg st nm idx = shouldRunPlugin cfg st nm idx2) ∧
    (∀ m N nm, cfg.plugin_skip_interval = some m → nm ∉ criticalPlugins →
      alistGet m nm = some N → 0 < N → ∀ idx,
      shouldRunPlugin cfg st nm idx =
        (((alistGet st.plugin_frame_counters nm).getD 0 + 1) % N == 0,
          { st with
              plugin_frame_counters := alistSet st.plugin_frame_counters nm
                  ((alistGet st.plugin_frame_counters nm).getD 0 + 1) })) ∧
    (∀ (ps : List PluginModel) (batch : List FrameData) (i : ℕ) (k : String),
      i < batch.length →
      (ps.map (fun q => q.name)).Nodup →
      k ∉ reservedKeys →
      (∀ q ∈ ps, NeverEmits q k ∨ shouldRunAt cfg st.plugin_frame_counters q.name i = false) →
      dget ((processMicroBatch cfg ps batch st).1.getD i []) k = none) := by
  refine ⟨?_, ?_, ?_, ?_⟩
  · intro nm hnm idx
    unfold shouldRunPlugin
    rw [if_pos hnm]
  · intro nm idx idx2
    rfl
  · intro m N nm hm hnc hN _ idx
    unfold shouldRunPlugin
    rw [if_neg hnc, hm]
    simp only [hN, Option.getD_some]
  · intro ps batch i k hi hnd hk hall
    have hi2 : i < (processMicroBatch cfg ps batch st).1.length := by
      rw [processMicroBatch_length]
      exact hi
    rw [List.getD_eq_getElem _ _ hi2]
    rw [processMicroBatch_registration_order cfg ps batch st hnd i hi hi2]
    unfold frameSeqResult
    exact seqFold_dget_none cfg st.plugin_frame_counters i (batch[i]).frame k ps
      (initFrameResult (batch[i])) (initFrameResult_dget_not_reserved _ _ hk) hall

/-- C6 witness: with `SkipPlugin` configured at interval 2, the critical
object detector runs unconditionally, the decision ignores the frame index,
the first `SkipPlugin` call is skipped (counter 1, 1 % 2 ≠ 0) with the counter
stored, and the single frame of a one-frame batch lacks `skipkey`. -/
theorem claim6_witness :
    shouldRunPlugin cfg6w {} "ObjectDetectionPlugin" 5 = (true, {}) ∧
    shouldRunPlugin cfg6w {} "SkipPlugin" 0 = shouldRunPlugin cfg6w {} "SkipPlugin" 7 ∧
    shouldRunPlugin cfg6w {} "SkipPlugin" 3 =
      (false, { plugin_frame_counters := [("SkipPlugin", 1)] }) ∧
    dget ((processMicroBatch cfg6w [skipPlug] [fd6w] {}).1.getD 0 []) "skipkey" = none := by
  obtain ⟨ha, hb, hc, hd⟩ := claim6_skip_policy cfg6w {}
  refine ⟨ha "ObjectDetectionPlugin" (by decide) 5, hb "SkipPlugin" 0 7, ?_, ?_⟩
  · exact (hc [("SkipPlugin", 2)] 2 "SkipPlugin" rfl (by decide) (by decide)
      (by decide) 3).trans rfl
  · refine hd [skipPlug] [fd6w] 0 "skipkey" (by decide) (by decide) (by decide) ?_
    intro q hq
    rw [List.mem_singleton] at hq
    subst hq
    right
    decide

/-- C5 counterexample fixture: a 1/2048-second sample interval. -/
def cfg5x : AnalysisConfig := { sample_interval_seconds := 1/2048 }

/-- C5 counterexample fixture: a 2048 fps stream of 2 native frames. -/
def v5x : Video := ⟨"c5.mp4", true, true, 2048, 2⟩

/-- C5 counterexample: with fps = 2048 and a 1/2048-second sample interval the
stride is one native frame, but one native frame lasts under half a
millisecond, so `round(pos/fps*1000)` sends positions 0 and 1 both to 0 ms:
the run's `start_time_ms` column is [0, 0] — not strictly increasing — while
`frame_idx` is [0, 1]; the claim's "frame_idx (equivalently start_time_ms)
strictly increasing" fails for `start_time_ms`. -/
theorem claim5_counterexample :
    (analyze cfg5x [] v5x).1.frame_analysis.map
      (fun d => dget d "start_time_ms") = [some (.int 0), some (.int 0)] ∧
    (analyze cfg5x [] v5x).1.frame_analysis.map
      (fun d => dget d "frame_idx") = [some (.int 0), some (.int 1)] := by
  have hok := analyzeStreamingOptimized_ok cfg5x [] v5x rfl (by norm_num [v5x])
    (by norm_num [v5x])
    (by show ¬ pyTrunc ((2048 : ℚ) * (1/2048)) = 0; norm_num [pyTrunc])
  have hexx : v5x.fileExists = true := rfl
  have hfa : (analyze cfg5x [] v5x).1.frame_analysis =
      (pipelineFinal cfg5x [] v5x).frame_analyses := by
    simp [analyze, hexx, hok]
  have hs : sampleStride 2048 (1/2048) = 1 := by
    unfold sampleStride
    have h1 : (2048 : ℚ) * (1/2048) = 1 := by norm_num
    rw [h1]
    have h2 : pyTrunc (1 : ℚ) = 1 := by norm_num [pyTrunc]
    rw [h2]
    rfl
  have hsteps : rangeStep 2 1 0 = [0, 1] := by
    rw [rangeStep_cons (by norm_num)]
    norm_num
    rw [rangeStep_cons (by norm_num)]
    norm_num
    exact rangeStep_nil (by norm_num)
  have hgf : genFrames cfg5x v5x =
      [mkFrameData 2048 2 1 0, mkFrameData 2048 2 1 1] := by
    show (rangeStep ((2 : ℤ)).toNat (sampleStride 2048 (1/2048)) 0).map
      (mkFrameData 2048 ((2 : ℤ)).toNat (sampleStride 2048 (1/2048))) = _
    rw [hs, show ((2 : ℤ)).toNat = 2 from rfl, hsteps]
    rfl
  have ht0 : (mkFrameData 2048 2 1 0).timestamp_ms = 0 := by
    show pyRound (((0 : ℕ) : ℚ) / 2048 * 1000) = 0
    norm_num [pyRound]
  have ht1 : (mkFrameData 2048 2 1 1).timestamp_ms = 0 := by
    show pyRound (((1 : ℕ) : ℚ) / 2048 * 1000) = 0
    have harg : ((1 : ℕ) : ℚ) / 2048 * 1000 = 125/256 := by norm_num
    rw [harg]
    have hfl : ⌊(125/256 : ℚ)⌋ = 0 := by norm_num
    unfold pyRound
    rw [hfl]
    norm_num
  constructor
  · rw [hfa]
    unfold pipelineFinal
    rw [pipelineRun_map_dget _ _ _ _ "start_time_ms"
      (fun p hp => absurd hp (List.not_mem_nil p))]
    rw [hgf]
    simp only [List.map_cons, List.map_nil, initFrameResult_start]
    rw [ht0, ht1]
  · rw [hfa]
    unfold pipelineFinal
    rw [pipelineRun_map_dget _ _ _ _ "frame_idx"
      (fun p hp => absurd hp (List.not_mem_nil p))]
    rw [hgf]
    simp only [List.map_cons, List.map_nil, initFrameResult_frame_idx]
    rfl

/-- C5 (amended/corrected): on every successful run the permanent
`frame_analysis` list is in source order — its `frame_idx` column equals the
generator's output in generator order and is strictly increasing; its
`start_time_ms` column equals the generator's timestamps in generator order
and is non-decreasing (but can repeat when the stride is shorter than one
millisecond, so it is NOT equivalent to `frame_idx` order); and within each
frame the plugins are applied in the fixed registration order (the i-th frame
record of a batch is the registration-order fold of the plugins over the base
record). -/
theorem claim5_source_order (cfg : AnalysisConfig) (ps : List PluginModel) (v : Video)
    (hex : v.fileExists = true) (hop : v.opens = true) (hfps : 0 < v.fps)
    (hT : 0 < v.totalFrames)
    (hs0 : ¬ pyTrunc (v.fps * cfg.sample_interval_seconds) = 0)
    (hgood : ∀ p ∈ ps, GoodPlugin p) :
    ((analyze cfg ps v).1.frame_analysis.map (fun d => dget d "frame_idx") =
      (genFrames cfg v).map (fun fd => some (Val.int fd.frame_idx))) ∧
    ((analyze cfg ps v).1.frame_analysis.map (fun d => dget d "start_time_ms") =
      (genFrames cfg v).map (fun fd => some (Val.int fd.timestamp_ms))) ∧
    List.Chain' (fun a b : FrameData => a.frame_idx < b.frame_idx) (genFrames cfg v) ∧
    List.Chain' (fun a b : FrameData => a.timestamp_ms ≤ b.timestamp_ms) (genFrames cfg v) ∧
    (∀ (batch : List FrameData) (st : AnalyzerState) (i : ℕ),
      (ps.map (fun q => q.name)).Nodup →
      ∀ (hi : i < batch.length), i < (processMicroBatch cfg ps batch st).1.length →
      (processMicroBatch cfg ps batch st).1.getD i [] =
        frameSeqResult cfg st.plugin_frame_counters ps i (batch[i])) := by
  have hok := analyzeStreamingOptimized_ok cfg ps v hop hfps hT hs0
  have hfa : (analyze cfg ps v).1.frame_analysis =
      (pipelineFinal cfg ps v).frame_analyses := by
    simp [analyze, hex, hok]
  have hchain0 : List.Chain'
      (fun a b => b = a + max 1 (sampleStride v.fps cfg.sample_interval_seconds))
      (rangeStep v.totalFrames.toNat (sampleStride v.fps cfg.sample_interval_seconds) 0) :=
    rangeStep_chain
  refine ⟨?_, ?_, ?_, ?_, ?_⟩
  · rw [hfa]
    unfold pipelineFinal
    rw [pipelineRun_map_dget cfg ps _ _ "frame_idx"
      (fun p hp => hgood p hp "frame_idx" (by decide))]
    refine List.map_congr_left ?_
    intro fd _
    rw [initFrameResult_frame_idx]
  · rw [hfa]
    unfold pipelineFinal
    rw [pipelineRun_map_dget cfg ps _ _ "start_time_ms"
      (fun p hp => hgood p hp "start_time_ms" (by decide))]
    refine List.map_congr_left ?_
    intro fd _
    rw [initFrameResult_start]
  · unfold genFrames
    rw [List.chain'_map]
    refine hchain0.imp ?_
    intro a b hab
    show a < b
    have h1 : 1 ≤ max 1 (sampleStride v.fps cfg.sample_interval_seconds) := le_max_left _ _
    omega
  · unfold genFrames
    rw [List.chain'_map]
    refine hchain0.imp ?_
    intro a b hab
    show pyRound ((a : ℚ) / v.fps * 1000) ≤ pyRound ((b : ℚ) / v.fps * 1000)
    apply pyRound_mono
    have hle : (a : ℚ) ≤ (b : ℚ) := by
      have h1 : 1 ≤ max 1 (sampleStride v.fps cfg.sample_interval_seconds) := le_max_left _ _
      have h2 : a ≤ b := by omega
      exact_mod_cast h2
    have hdiv : (a : ℚ) / v.fps ≤ (b : ℚ) / v.fps := (div_le_div_right hfps).mpr hle
    exact mul_le_mul_of_nonneg_right hdiv (by norm_num)
  · intro batch st i hnd hi hi2
    rw [List.getD_eq_getElem _ _ hi2]
    exact processMicroBatch_registration_order cfg ps batch st hnd i hi hi2

/-- C5 witness: a 2 fps, 10-frame stream with the default 2.5-second interval
and no plugins. -/
theorem claim5_witness :
    ((analyze {} [] ⟨"w5.mp4", true, true, 2, 10⟩).1.frame_analysis.map
        (fun d => dget d "frame_idx") =
      (genFrames {} ⟨"w5.mp4", true, true, 2, 10⟩).map
        (fun fd => some (Val.int fd.frame_idx))) ∧
    ((analyze {} [] ⟨"w5.mp4", true, true, 2, 10⟩).1.frame_analysis.map
        (fun d => dget d "start_time_ms") =
      (genFrames {} ⟨"w5.mp4", true, true, 2, 10⟩).map
        (fun fd => some (Val.int fd.timestamp_ms))) ∧
    List.Chain' (fun a b : FrameData => a.frame_idx < b.frame_idx)
      (genFrames {} ⟨"w5.mp4", true, true, 2, 10⟩) ∧
    List.Chain' (fun a b : FrameData => a.timestamp_ms ≤ b.timestamp_ms)
      (genFrames {} ⟨"w5.mp4", true, true, 2, 10⟩) ∧
    (∀ (batch : List FrameData) (st : AnalyzerState) (i : ℕ),
      (([] : List PluginModel).map (fun q => q.name)).Nodup →
      ∀ (hi : i < batch.length), i < (processMicroBatch {} [] batch st).1.length →
      (processMicroBatch {} [] batch st).1.getD i [] =
        frameSeqResult {} st.plugin_frame_counters [] i (batch[i])) :=
  claim5_source_order {} [] ⟨"w5.mp4", true, true, 2, 10⟩ rfl rfl (by norm_num)
    (by norm_num) (by show ¬ pyTrunc ((2 : ℚ) * (5/2)) = 0; norm_num [pyTrunc])
    (fun p hp => absurd hp (List.not_mem_nil p))

/-- Nat ceiling division `(T + s - 1) / s` is one more than the floor exactly
when `s` does not divide `T`. -/
theorem nat_ceil_div (T s : ℕ) (hs : 0 < s) :
    (T + s - 1) / s = if s ∣ T then T / s else T / s + 1 := by
  by_cases hd : s ∣ T
  · rw [if_pos hd]
    obtain ⟨q, rfl⟩ := hd
    have he : s * q + s - 1 = s * q + (s - 1) := by omega
    rw [he, Nat.mul_add_div hs, Nat.div_eq_of_lt (by omega), Nat.mul_div_cancel_left q hs]
    omega
  · rw [if_neg hd]
    have hr1 : 1 ≤ T % s :=
      Nat.pos_of_ne_zero (fun hc => hd (Nat.dvd_of_mod_eq_zero hc))
    have hrlt : T % s < s := Nat.mod_lt T hs
    have key : ∀ q r, 1 ≤ r → r < s → (s * q + r + s - 1) / s = (s * q + r) / s + 1 := by
      intro q r h1 h2
      have e1 : s * q + r + s - 1 = s * (q + 1) + (r - 1) := by
        have e2 : s * (q + 1) = s * q + s := by ring
        omega
      rw [e1, Nat.mul_add_div hs, Nat.div_eq_of_lt (by omega), Nat.mul_add_div hs,
        Nat.div_eq_of_lt (by omega)]
    have hkey := key (T / s) (T % s) hr1 hrlt
    rw [Nat.div_add_mod T s] at hkey
    exact hkey

/-- C7 counterexample fixture: the default 2.5-second interval. -/
def cfg7x : AnalysisConfig := {}

/-- C7 counterexample fixture: 2 fps, 10 native frames, so the stride 5
divides the frame count. -/
def v7x : Video := ⟨"c7.mp4", true, true, 2, 10⟩

/-- C7 counterexample: at 2 fps with the default 2.5-second interval the
stride is 5 and divides the 10 native frames, so the run produces
`ceil(10/5) = 2` samples while the precomputed `frames_total` is
`10 // 5 + 1 = 3`: the final progress call reports `frames_done = 2`, never
reaching `frames_total = 3`, although every sample was processed. -/
theorem claim7_counterexample :
    (analyze cfg7x [] v7x).2.map (fun c => (c.frames_done, c.frames_total)) =
      [(0, (0 : ℤ)), (2, 3)] ∧
    expectedTotal cfg7x v7x = 3 ∧
    (analyze cfg7x [] v7x).1.frame_analysis.length = 2 := by
  have hpt : pyTrunc ((2 : ℚ) * (5/2)) = 5 := by
    have h1 : (2 : ℚ) * (5/2) = 5 := by norm_num
    rw [h1]
    norm_num [pyTrunc]
  have hok := analyzeStreamingOptimized_ok cfg7x [] v7x rfl (by norm_num [v7x])
    (by norm_num [v7x]) (by show ¬ pyTrunc ((2 : ℚ) * (5/2)) = 0; rw [hpt]; decide)
  have hexx : v7x.fileExists = true := rfl
  have het : expectedTotal cfg7x v7x = 3 := by
    show Int.fdiv (10 : ℤ) (pyTrunc ((2 : ℚ) * (5/2))) + 1 = 3
    rw [hpt]
    decide
  have hs7 : sampleStride 2 (5/2) = 5 := by
    unfold sampleStride
    have h1 : (2 : ℚ) * (5/2) = 5 := by norm_num
    rw [h1]
    have h2 : pyTrunc (5 : ℚ) = 5 := by norm_num [pyTrunc]
    rw [h2]
    rfl
  have hsteps7 : rangeStep 10 5 0 = [0, 5] := by
    rw [rangeStep_cons (by norm_num)]
    norm_num
    rw [rangeStep_cons (by norm_num)]
    norm_num
    exact rangeStep_nil (by norm_num)
  have hgf7 : genFrames cfg7x v7x = [mkFrameData 2 10 5 0, mkFrameData 2 10 5 5] := by
    show (rangeStep ((10 : ℤ)).toNat (sampleStride 2 (5/2)) 0).map
      (mkFrameData 2 ((10 : ℤ)).toNat (sampleStride 2 (5/2))) = _
    rw [hs7, show ((10 : ℤ)).toNat = 10 from rfl, hsteps7]
    rfl
  have htr : (analyze cfg7x [] v7x).2 =
      ⟨0, 0, 0, 0⟩ :: (pipelineFinal cfg7x [] v7x).trace := by
    simp [analyze, hexx, hok]
  have hfa : (analyze cfg7x [] v7x).1.frame_analysis =
      (pipelineFinal cfg7x [] v7x).frame_analyses := by
    simp [analyze, hexx, hok]
  have hmap : (pipelineFinal cfg7x [] v7x).trace.map
      (fun c => (c.frames_done, c.frames_total)) = [(2, (3 : ℤ))] := by
    show (pipelineRun cfg7x [] (expectedTotal cfg7x v7x) (genFrames cfg7x v7x)).trace.map
      (fun c => (c.frames_done, c.frames_total)) = [(2, (3 : ℤ))]
    rw [hgf7, het]
    rfl
  have hflen : (pipelineFinal cfg7x [] v7x).frame_analyses.length = 2 := by
    show (pipelineRun cfg7x [] (expectedTotal cfg7x v7x)
      (genFrames cfg7x v7x)).frame_analyses.length = 2
    rw [hgf7, het]
    rfl
  refine ⟨?_, het, ?_⟩
  · rw [htr, List.map_cons, hmap]
  · rw [hfa, hflen]

/-- C7 (amended/corrected): every run's progress trace begins with the 0%
start call, reports non-decreasing `frames_done` throughout, and its final
call carries `frames_done` equal to the number of produced samples
`⌈T/s⌉ = (T + s - 1) / s` and `frames_total` equal to the precomputed
`T // s + 1`; the two agree exactly when the stride `s` does NOT divide the
native frame count `T` — on stride-aligned streams the final call stops one
short of `frames_total`, so the claimed terminal
`frames_done == frames_total` does not always hold. -/
theorem claim7_progress (cfg : AnalysisConfig) (ps : List PluginModel) (v : Video)
    (hex : v.fileExists = true) (hop : v.opens = true) (hfps : 0 < v.fps)
    (hT : 0 < v.totalFrames)
    (hpos : 0 < pyTrunc (v.fps * cfg.sample_interval_seconds)) :
    (analyze cfg ps v).2.head? = some ⟨0, 0, 0, 0⟩ ∧
    List.Chain' (fun a b => a.frames_done ≤ b.frames_done) (analyze cfg ps v).2 ∧
    (∃ h : (analyze cfg ps v).2 ≠ [],
      ((analyze cfg ps v).2.getLast h).frames_done = (genFrames cfg v).length ∧
      ((analyze cfg ps v).2.getLast h).frames_total = expectedTotal cfg v) ∧
    (genFrames cfg v).length =
      (v.totalFrames.toNat + sampleStride v.fps cfg.sample_interval_seconds - 1) /
        sampleStride v.fps cfg.sample_interval_seconds ∧
    expectedTotal cfg v =
      ((v.totalFrames.toNat / sampleStride v.fps cfg.sample_interval_seconds : ℕ) : ℤ) + 1 ∧
    (((genFrames cfg v).length : ℤ) = expectedTotal cfg v ↔
      ¬ sampleStride v.fps cfg.sample_interval_seconds ∣ v.totalFrames.toNat) := by
  have hs0 : ¬ pyTrunc (v.fps * cfg.sample_interval_seconds) = 0 := by omega
  have hok := analyzeStreamingOptimized_ok cfg ps v hop hfps hT hs0
  have htr : (analyze cfg ps v).2 =
      ⟨0, 0, 0, 0⟩ :: (pipelineFinal cfg ps v).trace := by
    simp [analyze, hex, hok]
  set s := sampleStride v.fps cfg.sample_interval_seconds with hsdef
  have hspos : 0 < s := by
    rw [hsdef]
    exact lt_of_lt_of_le Nat.zero_lt_one (le_max_left _ _)
  have hmax : max 1 s = s := by omega
  have hsZ : ((s : ℕ) : ℤ) = pyTrunc (v.fps * cfg.sample_interval_seconds) := by
    rw [hsdef]
    show ((max 1 (pyTrunc (v.fps * cfg.sample_interval_seconds)).toNat : ℕ) : ℤ) = _
    rw [max_eq_right (by omega : (1 : ℕ) ≤
      (pyTrunc (v.fps * cfg.sample_interval_seconds)).toNat)]
    exact Int.toNat_of_nonneg (le_of_lt hpos)
  have hlen : (genFrames cfg v).length = (v.totalFrames.toNat + s - 1) / s := by
    unfold genFrames
    rw [List.length_map, ← hsdef, rangeStep_length, hmax, Nat.sub_zero]
  have hexp : expectedTotal cfg v = ((v.totalFrames.toNat / s : ℕ) : ℤ) + 1 := by
    unfold expectedTotal
    rw [← hsZ]
    have hTZ : v.totalFrames = ((v.totalFrames.toNat : ℕ) : ℤ) :=
      (Int.toNat_of_nonneg (le_of_lt hT)).symm
    nth_rewrite 1 [hTZ]
    rw [← Int.ofNat_fdiv]
  have htot : ¬ expectedTotal cfg v = 0 := by
    rw [hexp]
    have h0 : (0 : ℤ) ≤ ((v.totalFrames.toNat / s : ℕ) : ℤ) := Int.ofNat_nonneg _
    omega
  have hPF : pipelineFinal cfg ps v =
      pipelineRun cfg ps (expectedTotal cfg v) (genFrames cfg v) := rfl
  obtain ⟨hchain, hall, hlast, hnonempty⟩ :=
    pipelineRun_trace cfg ps (expectedTotal cfg v) (genFrames cfg v) htot
  have hpr_cnt := (pipelineRun_count cfg ps (expectedTotal cfg v) (genFrames cfg v)).1
  have hglen0 : (genFrames cfg v).length ≠ 0 := by
    rw [hlen]
    have h10 : 1 ≤ (v.totalFrames.toNat + s - 1) / s :=
      (Nat.one_le_div_iff hspos).mpr (by omega)
    omega
  have hptr_ne : (pipelineRun cfg ps (expectedTotal cfg v) (genFrames cfg v)).trace ≠ [] := by
    apply hnonempty
    rw [hpr_cnt]
    exact hglen0
  refine ⟨?_, ?_, ?_, hlen, hexp, ?_⟩
  · rw [htr]
    rfl
  · rw [htr, hPF]
    exact List.chain'_cons'.mpr ⟨fun y _ => Nat.zero_le _, hchain⟩
  · rw [htr, hPF]
    refine ⟨List.cons_ne_nil _ _, ?_, ?_⟩
    · rw [List.getLast_cons hptr_ne]
      rcases hlast with he | ⟨hne2, hl⟩
      · exact absurd he hptr_ne
      · rw [hl]
        exact hpr_cnt
    · rw [List.getLast_cons hptr_ne]
      exact (hall _ (List.getLast_mem hptr_ne)).2
  · rw [hlen, hexp, nat_ceil_div _ _ hspos]
    by_cases hd : s ∣ v.totalFrames.toNat
    · rw [if_pos hd]
      constructor
      · intro heq
        exfalso
        omega
      · intro hcon
        exact absurd hd hcon
    · rw [if_neg hd]
      constructor
      · intro _
        exact hd
      · intro _
        push_cast
        ring

/-- C7 witness: a 1 fps, 3-frame stream with the default 2.5-second interval
(stride 2, which does not divide 3: 2 samples, frames_total 3 // 2 + 1 = 2). -/
theorem claim7_witness :
    (analyze {} [] ⟨"w7.mp4", true, true, 1, 3⟩).2.head? = some ⟨0, 0, 0, 0⟩ ∧
    List.Chain' (fun a b => a.frames_done ≤ b.frames_done)
      (analyze {} [] ⟨"w7.mp4", true, true, 1, 3⟩).2 ∧
    (∃ h : (analyze {} [] ⟨"w7.mp4", true, true, 1, 3⟩).2 ≠ [],
      ((analyze {} [] ⟨"w7.mp4", true, true, 1, 3⟩).2.getLast h).frames_done =
        (genFrames {} ⟨"w7.mp4", true, true, 1, 3⟩).length ∧
      ((analyze {} [] ⟨"w7.mp4", true, true, 1, 3⟩).2.getLast h).frames_total =
        expectedTotal {} ⟨"w7.mp4", true, true, 1, 3⟩) ∧
    (genFrames {} ⟨"w7.mp4", true, true, 1, 3⟩).length =
      (((3 : ℤ)).toNat + sampleStride 1 (5/2) - 1) / sampleStride 1 (5/2) ∧
    expectedTotal {} ⟨"w7.mp4", true, true, 1, 3⟩ =
      ((((3 : ℤ)).toNat / sampleStride 1 (5/2) : ℕ) : ℤ) + 1 ∧
    (((genFrames {} ⟨"w7.mp4", true, true, 1, 3⟩).length : ℤ) =
        expectedTotal {} ⟨"w7.mp4", true, true, 1, 3⟩ ↔
      ¬ sampleStride 1 (5/2) ∣ ((3 : ℤ)).toNat) :=
  claim7_progress {} [] ⟨"w7.mp4", true, true, 1, 3⟩ rfl rfl (by norm_num) (by norm_num)
    (by show 0 < pyTrunc ((1 : ℚ) * (5/2)); norm_num [pyTrunc])

/-- C1 fixture: the default configuration (60-second plugin timeout). -/
def cfg1x : AnalysisConfig := {}

/-- C1 fixture: a 1 fps, 3-frame stream (stride 2, samples at 0 and 2). -/
def v1x : Video := ⟨"c1.mp4", true, true, 1, 3⟩

/-- C1 fixture: a plugin whose every call lasts 61000 ms — beyond the
configured 60-second timeout. -/
def slowPlug : PluginModel :=
  { name := "SlowPlugin"
    analyzeFrame := fun _ _ => .ok [("slow_key", .str "v")] 61000 }

/-- C1 fixture: a plugin whose `analyze_frame` always raises. -/
def badPlug : PluginModel :=
  { name := "BadPlugin"
    analyzeFrame := fun _ _ => .exn 5 }

/-- C1 fixture: a well-behaved plugin. -/
def ok1Plug : PluginModel :=
  { name := "OkPlugin"
    analyzeFrame := fun _ _ => .ok [("ok_key", .str "w")] 10 }

/-- C1 fixture: the registered plugin chain. -/
def plugs1 : List PluginModel := [slowPlug, badPlug, ok1Plug]

/-- C1 (code bug): `_safe_plugin_call` never compares a call's duration with
`plugin_timeout_seconds` — no per-call timeout exists.  On this concrete run
a plugin whose every call lasts 61000 ms (beyond the configured 60 s) is
never cut off: the run completes without error, the slow plugin's annotation
is present on every frame, its recorded per-call durations exceed the
configured limit while its timeout counter stays 0.  The catch-half of the
claim does hold: the always-raising plugin aborts nothing, every other
plugin's annotation is present on every frame, the failing plugin's key is
absent everywhere (and, sic, its failures are counted in `plugin_timeouts`,
not `plugin_errors`). -/
theorem claim1_timeout_not_enforced :
    (analyze cfg1x plugs1 v1x).1.error = none ∧
    (analyze cfg1x plugs1 v1x).1.frame_analysis.map (fun d => dget d "slow_key") =
      [some (.str "v"), some (.str "v")] ∧
    (analyze cfg1x plugs1 v1x).1.frame_analysis.map (fun d => dget d "ok_key") =
      [some (.str "w"), some (.str "w")] ∧
    (analyze cfg1x plugs1 v1x).1.frame_analysis.map (fun d => dget d "bad_key") =
      [none, none] ∧
    (∃ frames st trace,
      analyzeStreamingOptimized cfg1x plugs1 v1x = .ok (frames, st, trace) ∧
      alistGet st.plugin_metrics "SlowPlugin" = some [61000, 61000] ∧
      alistGet st.plugin_timeouts "SlowPlugin" = some 0 ∧
      alistGet st.plugin_timeouts "BadPlugin" = some 2) ∧
    cfg1x.plugin_timeout_seconds * 1000 < 61000 := by
  have hpt1 : pyTrunc ((1 : ℚ) * (5/2)) = 2 := by
    have h1 : (1 : ℚ) * (5/2) = 5/2 := by norm_num
    rw [h1]
    norm_num [pyTrunc]
  have hok := analyzeStreamingOptimized_ok cfg1x plugs1 v1x rfl (by norm_num [v1x])
    (by norm_num [v1x]) (by show ¬ pyTrunc ((1 : ℚ) * (5/2)) = 0; rw [hpt1]; decide)
  have hexx : v1x.fileExists = true := rfl
  have het1 : expectedTotal cfg1x v1x = 2 := by
    show Int.fdiv (3 : ℤ) (pyTrunc ((1 : ℚ) * (5/2))) + 1 = 2
    rw [hpt1]
    decide
  have hs1 : sampleStride 1 (5/2) = 2 := by
    unfold sampleStride
    have h1 : (1 : ℚ) * (5/2) = 5/2 := by norm_num
    rw [h1]
    have h2 : pyTrunc ((5/2 : ℚ)) = 2 := by norm_num [pyTrunc]
    rw [h2]
    rfl
  have hsteps1 : rangeStep 3 2 0 = [0, 2] := by
    rw [rangeStep_cons (by norm_num)]
    norm_num
    rw [rangeStep_cons (by norm_num)]
    norm_num
    exact rangeStep_nil (by norm_num)
  have hgf1 : genFrames cfg1x v1x = [mkFrameData 1 3 2 0, mkFrameData 1 3 2 2] := by
    show (rangeStep ((3 : ℤ)).toNat (sampleStride 1 (5/2)) 0).map
      (mkFrameData 1 ((3 : ℤ)).toNat (sampleStride 1 (5/2))) = _
    rw [hs1, show ((3 : ℤ)).toNat = 3 from rfl, hsteps1]
    rfl
  have hfa : (analyze cfg1x plugs1 v1x).1.frame_analysis =
      (pipelineFinal cfg1x plugs1 v1x).frame_analyses := by
    simp [analyze, hexx, hok]
  have herr : (analyze cfg1x plugs1 v1x).1.error = none := by
    simp [analyze, hexx, hok]
  refine ⟨herr, ?_, ?_, ?_, ?_, by decide⟩
  · rw [hfa]
    show (pipelineRun cfg1x plugs1 (expectedTotal cfg1x v1x)
      (genFrames cfg1x v1x)).frame_analyses.map (fun d => dget d "slow_key") = _
    rw [hgf1, het1]
    rfl
  · rw [hfa]
    show (pipelineRun cfg1x plugs1 (expectedTotal cfg1x v1x)
      (genFrames cfg1x v1x)).frame_analyses.map (fun d => dget d "ok_key") = _
    rw [hgf1, het1]
    rfl
  · rw [hfa]
    show (pipelineRun cfg1x plugs1 (expectedTotal cfg1x v1x)
      (genFrames cfg1x v1x)).frame_analyses.map (fun d => dget d "bad_key") = _
    rw [hgf1, het1]
    rfl
  · refine ⟨_, _, _, hok, ?_, ?_, ?_⟩
    · show alistGet (pipelineRun cfg1x plugs1 (expectedTotal cfg1x v1x)
        (genFrames cfg1x v1x)).st.plugin_metrics "SlowPlugin" = some [61000, 61000]
      rw [hgf1, het1]
      rfl
    · show alistGet (pipelineRun cfg1x plugs1 (expectedTotal cfg1x v1x)
        (genFrames cfg1x v1x)).st.plugin_timeouts "SlowPlugin" = some 0
      rw [hgf1, het1]
      rfl
    · show alistGet (pipelineRun cfg1x plugs1 (expectedTotal cfg1x v1x)
        (genFrames cfg1x v1x)).st.plugin_timeouts "BadPlugin" = some 2
      rw [hgf1, het1]
      rfl

end EditMind
